import Mathlib

/-! # beyond-strcmp: seven boolean-token parsers

A shallow embedding of `src/main.c`.  A C string argument is modelled by the
bytes of the storage it points to (`List Nat`, one entry per byte, index 0 is
the byte the pointer addresses); the NULL pointer is `none`.  Every read of a
byte that lies outside that storage makes the result `none`, so a result
`some r` says that the C function returned `r` and read only allocated bytes.

Two things the C standard leaves to the target are parameters of the model:
`charSigned`, the signedness of `char` (it decides the value of `(int)*string`
for bytes from 0x80 on), and `wideShift`, the value of
`0xFFFFFFFFFFFFFFFF >> 64`, which `String_parseBoolReinterpret` computes at the
filler slots of its second table.  Words are read little-endian and `>>` on a
negative `int` is the arithmetic shift, as on x86, the target of the
`_bzhi_u64` variant.
-/

namespace BeyondStrcmp

/-! ## Storage, tokens and string literals -/

/-- Every entry of the storage is a byte. -/
def IsBytes (mem : List Nat) : Prop := ∀ b ∈ mem, b < 256

/-- The storage holds a terminator, i.e. the pointer addresses a C string. -/
def NulTerminated (mem : List Nat) : Prop := 0 ∈ mem

instance (mem : List Nat) : Decidable (IsBytes mem) :=
  inferInstanceAs (Decidable (∀ b ∈ mem, b < 256))

instance (mem : List Nat) : Decidable (NulTerminated mem) :=
  inferInstanceAs (Decidable (0 ∈ mem))

/-- The token held by a storage region: the bytes before the first 0 byte. -/
def token (mem : List Nat) : List Nat := mem.takeWhile (fun b => b != 0)

/-- The characters of a C string literal, without its terminator. -/
def lit (s : String) : List Nat := s.toList.map Char.toNat

/-- The storage of the C string literal `s`: its characters and the terminator. -/
def cstr (s : String) : List Nat := lit s ++ [0]

/-- The eight true-ish keywords of the classification contract. -/
def trueKeywords : List (List Nat) :=
  [lit "true", lit "yes", lit "on", lit "enable", lit "True", lit "Yes", lit "On", lit "Enable"]

/-- The eight false-ish keywords of the classification contract. -/
def falseKeywords : List (List Nat) :=
  [lit "false", lit "no", lit "off", lit "disable", lit "False", lit "No", lit "Off",
   lit "Disable"]

/-! ## C library and integer primitives -/

/-- The libc `strcmp`: walks both strings until the first difference or the
common terminator; the result is the difference of the two bytes read last. -/
def strcmp : List Nat → List Nat → Option Int
  | a :: s, b :: t =>
    if a ≠ b then some ((a : Int) - (b : Int))
    else if a = 0 then some 0
    else strcmp s t
  | _, _ => none

/-- The value of a byte read as a `char` and converted to `int`; `char` is
signed on x86 (`charSigned = true`) and unsigned on some other targets. -/
def charToInt (charSigned : Bool) (b : Nat) : Int :=
  if charSigned && decide (128 ≤ b) then (b : Int) - 256 else (b : Int)

/-- The value of `(int)*string`. -/
def firstCharOf (charSigned : Bool) (string : List Nat) : Option Int :=
  match string with
  | [] => none
  | b :: _ => some (charToInt charSigned b)

/-- Conversion of an `int` to `unsigned int`, as done by `x & 7u`. -/
def toU32 (x : Int) : Nat := (x % 4294967296).toNat

/-- The value of `*((uint64_t*)(p + off))` on a little-endian machine. -/
def load64 (mem : List Nat) (off : Nat) : Option Nat :=
  match mem.drop off with
  | b0 :: b1 :: b2 :: b3 :: b4 :: b5 :: b6 :: b7 :: _ =>
    some (b0 + 256 * b1 + 65536 * b2 + 16777216 * b3 + 4294967296 * b4
      + 1099511627776 * b5 + 281474976710656 * b6 + 72057594037927936 * b7)
  | _ => none

/-- The value of `0xFFFFFFFFFFFFFFFF >> n` for a 64-bit operand.  For `n = 64`
the C standard leaves the result undefined; `wideShift` is the value the
target produces there (x86 shift instructions use the count modulo 64 and
give `0xFFFFFFFFFFFFFFFF`). -/
def maskShr (wideShift : Nat) (n : Nat) : Nat :=
  if n < 64 then 18446744073709551615 >>> n else wideShift

/-- The value of `0xFFFFFFFFFFFFFFFF >> 64` on x86, whose shift instructions
use the low 6 bits of the count. -/
def x86WideShift : Nat := 18446744073709551615

/-- The BMI2 intrinsic `_bzhi_u64(x, n)`: the bits of `x` from position
`n[7:0]` upwards are cleared; for an index of 64 or more `x` is unchanged. -/
def _bzhi_u64 (x : Nat) (n : Nat) : Nat :=
  if n % 256 < 64 then x % 2 ^ (n % 256) else x

/-! ## Strategy 1: character loop -/

namespace Loop

/-- The table `match[16]` of `String_parseBoolLoop`. -/
def match_ : List (List Nat) :=
  [cstr "true", cstr "yes", cstr "no", cstr "false", cstr "on", cstr "off", cstr "True",
   cstr "False", cstr "Yes", cstr "No", cstr "enable", cstr "disable", cstr "On", cstr "Off",
   cstr "Enable", cstr "Disable"]

/-- The table `value[16]` of `String_parseBoolLoop`. -/
def value : List Int := [1, 1, 0, 0, 1, 0, 1, 0, 1, 0, 1, 0, 1, 0, 1, 0]

/-- The inner `while (*strMatch != 0)` loop; the result is the flag `result`. -/
def whileLoop : List Nat → List Nat → Option Int
  | [], _ => none
  | m :: strMatch, strCheck =>
    if m = 0 then some 1
    else match strCheck with
      | [] => none
      | c :: strCheck => if c ≠ m then some 0 else whileLoop strMatch strCheck

/-- The `for (j ...)` loop over the remaining rows `(match[j], value[j])`. -/
def forLoop (string : List Nat) : List (List Nat × Int) → Option Int
  | [] => some (-1)
  | (strMatch, v) :: rows =>
    match whileLoop strMatch string with
    | none => none
    | some result => if result ≠ 0 then some v else forLoop string rows

/-- The rows of the two tables side by side: the keyword of `match[j]`
without its terminator, and `value[j]`. -/
def rows : List (List Nat × Int) :=
  [(lit "true", 1), (lit "yes", 1), (lit "no", 0), (lit "false", 0), (lit "on", 1),
   (lit "off", 0), (lit "True", 1), (lit "False", 0), (lit "Yes", 1), (lit "No", 0),
   (lit "enable", 1), (lit "disable", 0), (lit "On", 1), (lit "Off", 0), (lit "Enable", 1),
   (lit "Disable", 0)]

/-- The class of the first row whose keyword is a prefix of `t`, and -1 when
no keyword of the rows is a prefix of `t`. -/
def scan : List (List Nat × Int) → List Nat → Int
  | [], _ => -1
  | (k, v) :: rows, t => if k.isPrefixOf t then v else scan rows t

end Loop

/-- The function `String_parseBoolLoop` of `src/main.c`. -/
def String_parseBoolLoop (string : Option (List Nat)) : Option Int :=
  match string with
  | none => some (-1)
  | some s => Loop.forLoop s (Loop.match_.zip Loop.value)

/-! ## Strategy 2: character loop with `goto` -/

namespace Goto

/-- The table `match[16]` of `String_parseBoolGoto`. -/
def match_ : List (List Nat) :=
  [cstr "true", cstr "yes", cstr "no", cstr "false", cstr "on", cstr "off", cstr "True",
   cstr "False", cstr "Yes", cstr "No", cstr "enable", cstr "disable", cstr "On", cstr "Off",
   cstr "Enable", cstr "Disable"]

/-- The table `value[16]` of `String_parseBoolGoto`. -/
def value : List Int := [1, 1, 0, 0, 1, 0, 1, 0, 1, 0, 1, 0, 1, 0, 1, 0]

/-- The inner `while` loop; `true` says that control left it through
`goto no_match`, `false` that the loop condition ended it. -/
def whileLoop : List Nat → List Nat → Option Bool
  | [], _ => none
  | m :: strMatch, strCheck =>
    if m = 0 then some false
    else match strCheck with
      | [] => none
      | c :: strCheck => if c ≠ m then some true else whileLoop strMatch strCheck

/-- The `for (j ...)` loop over the remaining rows `(match[j], value[j])`. -/
def forLoop (string : List Nat) : List (List Nat × Int) → Option Int
  | [] => some (-1)
  | (strMatch, v) :: rows =>
    match whileLoop strMatch string with
    | none => none
    | some true => forLoop string rows
    | some false => some v

end Goto

/-- The function `String_parseBoolGoto` of `src/main.c`. -/
def String_parseBoolGoto (string : Option (List Nat)) : Option Int :=
  match string with
  | none => some (-1)
  | some s => Goto.forLoop s (Goto.match_.zip Goto.value)

/-! ## Strategy 3: chain of `strcmp` calls -/

/-- A chain `strcmp(string, k1) == 0 || strcmp(string, k2) == 0 || ...`,
evaluated left to right and stopping at the first true disjunct. -/
def orChain (string : List Nat) : List (List Nat) → Option Bool
  | [] => some false
  | k :: ks =>
    match strcmp string k with
    | none => none
    | some d => if d = 0 then some true else orChain string ks

/-- The function `String_parseBoolStrcmp` of `src/main.c`. -/
def String_parseBoolStrcmp (string : Option (List Nat)) : Option Int :=
  match string with
  | none => some (-1)
  | some s =>
    match orChain s [cstr "true", cstr "yes", cstr "on", cstr "enable", cstr "True",
        cstr "Yes", cstr "On", cstr "Enable"] with
    | none => none
    | some true => some 1
    | some false =>
      match orChain s [cstr "false", cstr "no", cstr "off", cstr "disable", cstr "False",
          cstr "No", cstr "Off", cstr "Disable"] with
      | none => none
      | some true => some 0
      | some false => some (-1)

/-! ## Strategy 4: first-character hash into two keyword tables -/

/-- Arithmetic right shift of an `int`, as x86 compilers implement `>>`. -/
def sar (x : Int) (n : Nat) : Int := x >>> n

/-- Left shift of an `int`.  The first character lies in `-128 .. 255`, so no
intermediate value of the hash expressions leaves the range of `int`. -/
def shl (x : Int) (n : Nat) : Int := x * 2 ^ n

namespace Hashing

/-- The table `match[8]` of `String_parseBoolHashing`. -/
def match_ : List (List Nat) :=
  [cstr "Enable", cstr "On", cstr "True", cstr "Yes", cstr "enable", cstr "on", cstr "true",
   cstr "yes"]

/-- The table `notMatch[8]` of `String_parseBoolHashing`. -/
def notMatch : List (List Nat) :=
  [cstr "Disable", cstr "False", cstr "No", cstr "Off", cstr "disable", cstr "false",
   cstr "no", cstr "off"]

/-- The index `((firstChar - 'A') >> 3u) & 7u` into `match`. -/
def matchIndex (firstChar : Int) : Nat := toU32 (sar (firstChar - 65) 3) &&& 7

/-- The local `capsOffset = (firstChar - 65) >> 5u`. -/
def capsOffset (firstChar : Int) : Int := sar (firstChar - 65) 5

/-- The index `((((firstChar - 57 - (capsOffset << 4u)) << 3u) - firstChar
+ (capsOffset << 5u)) >> 5u) & 7u` into `notMatch`. -/
def notMatchIndex (firstChar : Int) : Nat :=
  toU32 (sar (shl (firstChar - 57 - shl (capsOffset firstChar) 4) 3 - firstChar
    + shl (capsOffset firstChar) 5) 5) &&& 7

end Hashing

/-- The function `String_parseBoolHashing` of `src/main.c`. -/
def String_parseBoolHashing (charSigned : Bool) (string : Option (List Nat)) : Option Int :=
  match string with
  | none => some (-1)
  | some s => do
    let firstChar ← firstCharOf charSigned s
    let k ← Hashing.match_[Hashing.matchIndex firstChar]?
    let d ← strcmp s k
    if d = 0 then some 1
    else do
      let k2 ← Hashing.notMatch[Hashing.notMatchIndex firstChar]?
      let d2 ← strcmp s k2
      if d2 = 0 then some 0 else some (-1)

/-! ## Strategies 5 to 7: hash into packed 8-byte slots -/

namespace Packed

/-- The string literal `match` shared by `String_parseBoolPacking`,
`String_parseBoolReinterpret` and `String_parseBoolReinterpretIntrinsic`:
eight slots of 8 bytes and the terminator of the literal. -/
def match_ : List Nat :=
  lit "Enable" ++ [0, 0] ++ (lit "On" ++ [0, 0, 0, 0, 0, 0]) ++ (lit "True" ++ [0, 0, 0, 0])
    ++ (lit "Yes" ++ [0, 0, 0, 0, 0]) ++ (lit "enable" ++ [0, 0])
    ++ (lit "on" ++ [0, 0, 0, 0, 0, 0]) ++ (lit "true" ++ [0, 0, 0, 0])
    ++ (lit "yes" ++ [0, 0, 0, 0]) ++ [0]

/-- Eight bytes `0xCC`, the filler of an unused slot. -/
def filler : List Nat := [204, 204, 204, 204, 204, 204, 204, 204]

/-- The string literal `notMatch` shared by the same three functions: the
slots 0..3 and 7..10 hold keywords, the slots 4..6 and 11..14 are filler, the
last slot is seven filler bytes and the terminator of the literal. -/
def notMatch : List Nat :=
  lit "Disable" ++ [0] ++ (lit "False" ++ [0, 0, 0]) ++ (lit "No" ++ [0, 0, 0, 0, 0, 0])
    ++ (lit "Off" ++ [0, 0, 0, 0, 0]) ++ filler ++ filler ++ filler
    ++ (lit "disable" ++ [0]) ++ (lit "false" ++ [0, 0, 0]) ++ (lit "no" ++ [0, 0, 0, 0, 0, 0])
    ++ (lit "off" ++ [0, 0, 0, 0, 0]) ++ filler ++ filler ++ filler ++ filler
    ++ [204, 204, 204, 204, 204, 204, 204] ++ [0]

/-- The offsets of `notMatch` at which a keyword is stored. -/
def keywordOffsets : List Nat := [0, 8, 16, 24, 56, 64, 72, 80]

/-- The offsets of `notMatch` at which filler bytes are stored. -/
def fillerOffsets : List Nat := [32, 40, 48, 88, 96, 104, 112, 120]

/-- The offset `(firstChar - 'A') & 56u` into `match`. -/
def matchOffset (firstChar : Int) : Nat := toU32 (firstChar - 65) &&& 56

/-- The offset `((((firstChar - 57) << 3u) - firstChar) >> 2u) & 120u` into
`notMatch`. -/
def notMatchOffset (firstChar : Int) : Nat :=
  toU32 (sar (shl (firstChar - 57) 3 - firstChar) 2) &&& 120

end Packed

/-- The function `String_parseBoolPacking` of `src/main.c`. -/
def String_parseBoolPacking (charSigned : Bool) (string : Option (List Nat)) : Option Int :=
  match string with
  | none => some (-1)
  | some s => do
    let firstChar ← firstCharOf charSigned s
    let d ← strcmp s (Packed.match_.drop (Packed.matchOffset firstChar))
    if d = 0 then some 1
    else do
      let d2 ← strcmp s (Packed.notMatch.drop (Packed.notMatchOffset firstChar))
      if d2 = 0 then some 0 else some (-1)

namespace Reinterpret

/-- The table `lengths[64]` of `String_parseBoolReinterpret` (shift counts). -/
def lengths : List Nat :=
  [8, 0, 0, 0, 0, 0, 0, 0, 40, 0, 0, 0, 0, 0, 0, 0, 24, 0, 0, 0, 0, 0, 0, 0,
   32, 0, 0, 0, 0, 0, 0, 0, 8, 0, 0, 0, 0, 0, 0, 0, 40, 0, 0, 0, 0, 0, 0, 0,
   24, 0, 0, 0, 0, 0, 0, 0, 32, 0, 0, 0, 0, 0, 0, 0]

/-- The table `lengths2[128]` of `String_parseBoolReinterpret` (shift counts). -/
def lengths2 : List Nat :=
  [0, 0, 0, 0, 0, 0, 0, 0, 16, 0, 0, 0, 0, 0, 0, 0, 40, 0, 0, 0, 0, 0, 0, 0,
   32, 0, 0, 0, 0, 0, 0, 0, 64, 0, 0, 0, 0, 0, 0, 0, 64, 0, 0, 0, 0, 0, 0, 0,
   64, 0, 0, 0, 0, 0, 0, 0, 0, 0, 0, 0, 0, 0, 0, 0, 16, 0, 0, 0, 0, 0, 0, 0,
   40, 0, 0, 0, 0, 0, 0, 0, 32, 0, 0, 0, 0, 0, 0, 0, 64, 0, 0, 0, 0, 0, 0, 0,
   64, 0, 0, 0, 0, 0, 0, 0, 64, 0, 0, 0, 0, 0, 0, 0, 64, 0, 0, 0, 0, 0, 0, 0,
   64, 0, 0, 0, 0, 0, 0, 0]

end Reinterpret

/-- The function `String_parseBoolReinterpret` of `src/main.c`; `wideShift`
is the value the target gives to `0xFFFFFFFFFFFFFFFF >> 64`. -/
def String_parseBoolReinterpret (charSigned : Bool) (wideShift : Nat)
    (string : Option (List Nat)) : Option Int :=
  match string with
  | none => some (-1)
  | some s => do
    let firstChar ← firstCharOf charSigned s
    let offset := Packed.matchOffset firstChar
    let word ← load64 s 0
    let len ← Reinterpret.lengths[offset]?
    let slot ← load64 Packed.match_ offset
    if word &&& maskShr wideShift len = slot then some 1
    else do
      let offset2 := Packed.notMatchOffset firstChar
      let len2 ← Reinterpret.lengths2[offset2]?
      let slot2 ← load64 Packed.notMatch offset2
      if word &&& maskShr wideShift len2 = slot2 then some 0 else some (-1)

namespace Intrinsic

/-- The table `lengths[64]` of `String_parseBoolReinterpretIntrinsic` (numbers
of bits kept). -/
def lengths : List Nat :=
  [56, 0, 0, 0, 0, 0, 0, 0, 24, 0, 0, 0, 0, 0, 0, 0, 40, 0, 0, 0, 0, 0, 0, 0,
   32, 0, 0, 0, 0, 0, 0, 0, 56, 0, 0, 0, 0, 0, 0, 0, 24, 0, 0, 0, 0, 0, 0, 0,
   40, 0, 0, 0, 0, 0, 0, 0, 32, 0, 0, 0, 0, 0, 0, 0]

/-- The table `lengths2[128]` of `String_parseBoolReinterpretIntrinsic`
(numbers of bits kept). -/
def lengths2 : List Nat :=
  [64, 0, 0, 0, 0, 0, 0, 0, 48, 0, 0, 0, 0, 0, 0, 0, 24, 0, 0, 0, 0, 0, 0, 0,
   32, 0, 0, 0, 0, 0, 0, 0, 0, 0, 0, 0, 0, 0, 0, 0, 0, 0, 0, 0, 0, 0, 0, 0,
   0, 0, 0, 0, 0, 0, 0, 0, 64, 0, 0, 0, 0, 0, 0, 0, 48, 0, 0, 0, 0, 0, 0, 0,
   24, 0, 0, 0, 0, 0, 0, 0, 32, 0, 0, 0, 0, 0, 0, 0, 0, 0, 0, 0, 0, 0, 0, 0,
   0, 0, 0, 0, 0, 0, 0, 0, 0, 0, 0, 0, 0, 0, 0, 0, 0, 0, 0, 0, 0, 0, 0, 0,
   0, 0, 0, 0, 0, 0, 0, 0]

end Intrinsic

/-- The function `String_parseBoolReinterpretIntrinsic` of `src/main.c`. -/
def String_parseBoolReinterpretIntrinsic (charSigned : Bool)
    (string : Option (List Nat)) : Option Int :=
  match string with
  | none => some (-1)
  | some s => do
    let firstChar ← firstCharOf charSigned s
    let offset := Packed.matchOffset firstChar
    let word ← load64 s 0
    let len ← Intrinsic.lengths[offset]?
    let slot ← load64 Packed.match_ offset
    if _bzhi_u64 word len = slot then some 1
    else do
      let offset2 := Packed.notMatchOffset firstChar
      let len2 ← Intrinsic.lengths2[offset2]?
      let slot2 ← load64 Packed.notMatch offset2
      if _bzhi_u64 word len2 = slot2 then some 0 else some (-1)

/-! ## The bench runner of `src/benchmark.c` -/

/-- Conversion of an `unsigned int` to `int` (two's complement). -/
def toI32 (u : Nat) : Int :=
  if u % 4294967296 < 2147483648 then ((u % 4294967296 : Nat) : Int)
  else ((u % 4294967296 : Nat) : Int) - 4294967296

/-- The statement `counter += u` for an `int` counter and an `unsigned int`
operand: the sum is formed in `unsigned int` and converted back to `int`. -/
def addAssignU (counter : Int) (u : Nat) : Int := toI32 ((toU32 counter + u) % 4294967296)

/-- The `for (i ...)` loop of `run_test` with `n` iterations left, on the
state `(trueCounter, errorCounter)`.  The result is `none` when an iteration
is undefined: `i % stringCount` with `stringCount = 0`, a row outside
`boolStrings`, or a parser that reads outside the row. -/
def run_test_loop (parser : Option (List Nat) → Option Int) (boolStrings : List (List Nat))
    (stringCount : Nat) : Nat → Nat → Int × Int → Option (Int × Int)
  | 0, _, counters => some counters
  | n + 1, i, (trueCounter, errorCounter) =>
    if stringCount = 0 then none
    else
      match boolStrings[i % stringCount]? with
      | none => none
      | some newString =>
        match parser (some newString) with
        | none => none
        | some resultBool =>
          run_test_loop parser boolStrings stringCount n (i + 1)
            (addAssignU trueCounter (if resultBool = 1 then 1 else 0),
             addAssignU errorCounter (if resultBool = -1 then 1 else 0))

/-- The counters `(trueCounter, errorCounter)` that `run_test` prints after
its loop; `BOOL_RUNS` is the macro of `benchmark.h`, `boolStrings` and
`stringCount` are the two globals of `benchmark.c`. -/
def run_test (parser : Option (List Nat) → Option Int) (boolStrings : List (List Nat))
    (stringCount : Nat) (BOOL_RUNS : Int) : Option (Int × Int) :=
  run_test_loop parser boolStrings stringCount BOOL_RUNS.toNat 0 (0, 0)

/-- The number of runs `i` of `runs` for which the parser classifies the
token `boolStrings[i % stringCount]` as `v`. -/
def tally (parser : Option (List Nat) → Option Int) (boolStrings : List (List Nat))
    (stringCount : Nat) (runs : List Nat) (v : Int) : Nat :=
  runs.countP (fun i => decide (parser boolStrings[i % stringCount]? = some v))

/-- The number of runs `i` of `runs` for which the parser returns neither 1
nor -1 on the token `boolStrings[i % stringCount]`. -/
def tallyOther (parser : Option (List Nat) → Option Int) (boolStrings : List (List Nat))
    (stringCount : Nat) (runs : List Nat) : Nat :=
  runs.countP (fun i => decide (parser boolStrings[i % stringCount]? ≠ some 1
    ∧ parser boolStrings[i % stringCount]? ≠ some (-1)))

/-! ## The reads of the two character loops -/

/-- The inner `while` loop of `String_parseBoolLoop` with its reads of the
input recorded: the flag `result` as in `Loop.whileLoop`, and the indices at
which `*(strCheck++)` is evaluated, `i` being the index of the next read. -/
def Loop.whileLoopReads : List Nat → List Nat → Nat → Option Int × List Nat
  | [], _, _ => (none, [])
  | m :: strMatch, strCheck, i =>
    if m = 0 then (some 1, [])
    else match strCheck with
      | [] => (none, [i])
      | c :: strCheck =>
        if c ≠ m then (some 0, [i])
        else ((whileLoopReads strMatch strCheck (i + 1)).1,
              i :: (whileLoopReads strMatch strCheck (i + 1)).2)

/-- The inner `while` loop of `String_parseBoolGoto` with its reads of the
input recorded, as `Loop.whileLoopReads`. -/
def Goto.whileLoopReads : List Nat → List Nat → Nat → Option Bool × List Nat
  | [], _, _ => (none, [])
  | m :: strMatch, strCheck, i =>
    if m = 0 then (some false, [])
    else match strCheck with
      | [] => (none, [i])
      | c :: strCheck =>
        if c ≠ m then (some true, [i])
        else ((whileLoopReads strMatch strCheck (i + 1)).1,
              i :: (whileLoopReads strMatch strCheck (i + 1)).2)

/-! ## The `strcmp` chain -/

theorem token_nil : token [] = [] := rfl

theorem token_cons_zero (s : List Nat) : token (0 :: s) = [] := by
  simp [token]

theorem token_cons_ne (a : Nat) (s : List Nat) (h : a ≠ 0) : token (a :: s) = a :: token s := by
  simp [token, List.takeWhile_cons, h]

/-- On a C string, `strcmp` against the literal `k` returns, and returns 0
exactly when the token equals `k`. -/
theorem strcmp_spec (s : List Nat) (hs : 0 ∈ s) :
    ∀ (k rest : List Nat), 0 ∉ k →
      ∃ d, strcmp s (k ++ 0 :: rest) = some d ∧ (d = 0 ↔ token s = k) := by
  induction s with
  | nil => simp at hs
  | cons a s ih =>
    intro k rest hk
    cases k with
    | nil =>
      by_cases ha : a = 0
      · subst ha
        exact ⟨0, by simp [strcmp], by simp [token_cons_zero]⟩
      · refine ⟨(a : Int) - 0, by simp [strcmp, ha], ?_⟩
        simp [token_cons_ne a s ha]
        omega
    | cons b k =>
      have hb : b ≠ 0 := fun h => hk (by simp [h])
      have hk2 : 0 ∉ k := fun h => hk (by simp [h])
      by_cases hab : a = b
      · subst hab
        have hs2 : 0 ∈ s := by
          rcases List.mem_cons.1 hs with h | h
          · exact absurd h.symm hb
          · exact h
        obtain ⟨d, hd, hiff⟩ := ih hs2 k rest hk2
        refine ⟨d, by simp [strcmp, hb, hd], ?_⟩
        rw [hiff, token_cons_ne a s hb]
        simp
      · refine ⟨(a : Int) - b, by simp [strcmp, hab], ?_⟩
        constructor
        · intro h
          exact absurd (by omega : a = b) hab
        · intro h
          by_cases ha : a = 0
          · subst ha
            simp [token_cons_zero] at h
          · rw [token_cons_ne a s ha] at h
            simp at h
            exact absurd h.1 hab

/-- A chain of `strcmp` calls against literals decides membership of the token. -/
theorem orChain_spec (s : List Nat) (hs : 0 ∈ s) :
    ∀ ks : List (List Nat), (∀ k ∈ ks, 0 ∉ k) →
      orChain s (ks.map fun k => k ++ [0]) = some (decide (token s ∈ ks)) := by
  intro ks
  induction ks with
  | nil => intro _; simp [orChain]
  | cons k ks ih =>
    intro hks
    obtain ⟨d, hd, hiff⟩ := strcmp_spec s hs k [] (hks k (by simp))
    have ih2 := ih (fun k' hk' => hks k' (by simp [hk']))
    by_cases h0 : d = 0
    · have := hiff.1 h0
      simp [orChain, hd, h0, this]
    · have hne : ¬ token s = k := fun h => h0 (hiff.2 h)
      simp [orChain, hd, h0, ih2, hne]


theorem trueKeywords_zero_free : ∀ k ∈ trueKeywords, 0 ∉ k := by decide

theorem falseKeywords_zero_free : ∀ k ∈ falseKeywords, 0 ∉ k := by decide

theorem keywords_disjoint : ∀ k ∈ trueKeywords, k ∉ falseKeywords := by decide

/-- The Direct Equality Chain returns the class of the token. -/
theorem strcmp_chain_value (s : List Nat) (hs : NulTerminated s) :
    String_parseBoolStrcmp (some s) =
      some (if token s ∈ trueKeywords then 1 else if token s ∈ falseKeywords then 0 else -1) := by
  have h1 := orChain_spec s hs trueKeywords trueKeywords_zero_free
  have h2 := orChain_spec s hs falseKeywords falseKeywords_zero_free
  simp only [trueKeywords, falseKeywords, List.map] at h1 h2
  simp only [String_parseBoolStrcmp, cstr]
  rw [h1]
  by_cases ht : token s ∈ trueKeywords
  · simp only [trueKeywords] at ht
    simp [ht, trueKeywords]
  · simp only [trueKeywords] at ht
    simp only [ht, decide_False]
    rw [h2]
    by_cases hf : token s ∈ falseKeywords
    · simp only [falseKeywords] at hf
      simp [hf, ht, trueKeywords, falseKeywords]
    · simp only [falseKeywords] at hf
      simp [hf, ht, trueKeywords, falseKeywords]

/-- C5: for every NUL-terminated input, `String_parseBoolStrcmp` returns 1 exactly
when the token is one of the 8 true-ish keywords, 0 exactly when it is one of
the 8 false-ish keywords, and -1 otherwise. -/
theorem C5_strcmp_contract (s : List Nat) (hs : NulTerminated s) :
    (String_parseBoolStrcmp (some s) = some 1 ↔ token s ∈ trueKeywords) ∧
    (String_parseBoolStrcmp (some s) = some 0 ↔ token s ∈ falseKeywords) ∧
    (token s ∉ trueKeywords → token s ∉ falseKeywords →
      String_parseBoolStrcmp (some s) = some (-1)) := by
  rw [strcmp_chain_value s hs]
  by_cases ht : token s ∈ trueKeywords
  · have hf : token s ∉ falseKeywords := keywords_disjoint _ ht
    simp [ht, hf]
  · by_cases hf : token s ∈ falseKeywords
    · simp [ht, hf]
    · simp [ht, hf]

theorem C5_strcmp_contract_witness :
    NulTerminated (cstr "truee") ∧
    ((String_parseBoolStrcmp (some (cstr "truee")) = some 1 ↔ token (cstr "truee") ∈ trueKeywords) ∧
    (String_parseBoolStrcmp (some (cstr "truee")) = some 0 ↔
      token (cstr "truee") ∈ falseKeywords) ∧
    (token (cstr "truee") ∉ trueKeywords → token (cstr "truee") ∉ falseKeywords →
      String_parseBoolStrcmp (some (cstr "truee")) = some (-1))) :=
  ⟨by decide, C5_strcmp_contract (cstr "truee") (by decide)⟩

/-! ## The two character loops -/

/-- The `goto` loop jumps to `no_match` exactly when the flag loop clears
`result`, and both read the same bytes. -/
theorem goto_whileLoop_eq (strMatch : List Nat) :
    ∀ strCheck : List Nat,
      Goto.whileLoop strMatch strCheck
        = (Loop.whileLoop strMatch strCheck).map (fun result => decide (result = 0)) := by
  induction strMatch with
  | nil => intro strCheck; simp [Goto.whileLoop, Loop.whileLoop]
  | cons m strMatch ih =>
    intro strCheck
    by_cases hm : m = 0
    · simp [Goto.whileLoop, Loop.whileLoop, hm]
    · cases strCheck with
      | nil => simp [Goto.whileLoop, Loop.whileLoop, hm]
      | cons c strCheck =>
        by_cases hc : c = m
        · simp [Goto.whileLoop, Loop.whileLoop, hm, hc, ih]
        · simp [Goto.whileLoop, Loop.whileLoop, hm, hc]

theorem goto_forLoop_eq (string : List Nat) (rows : List (List Nat × Int)) :
    Goto.forLoop string rows = Loop.forLoop string rows := by
  induction rows with
  | nil => simp [Goto.forLoop, Loop.forLoop]
  | cons row rows ih =>
    obtain ⟨strMatch, v⟩ := row
    simp only [Goto.forLoop, Loop.forLoop, goto_whileLoop_eq]
    cases h : Loop.whileLoop strMatch string with
    | none => simp
    | some result =>
      by_cases hr : result = 0
      · simp [hr, ih]
      · simp [hr]

theorem goto_eq_loop (string : Option (List Nat)) :
    String_parseBoolGoto string = String_parseBoolLoop string := by
  cases string with
  | none => rfl
  | some s =>
    simp only [String_parseBoolGoto, String_parseBoolLoop]
    rw [goto_forLoop_eq]
    rfl

/-- C10: for every input, the NULL pointer included, `String_parseBoolGoto`
returns what `String_parseBoolLoop` returns. -/
theorem C10_goto_eq_loop (string : Option (List Nat)) :
    String_parseBoolGoto string = String_parseBoolLoop string :=
  goto_eq_loop string

/-! ## First-character hash into keyword tables -/

theorem and_seven_lt (x : Nat) : x &&& 7 < 8 :=
  Nat.lt_succ_of_le Nat.and_le_right

theorem hashing_match_rows :
    ∀ k ∈ Hashing.match_, ∃ k0 ∈ trueKeywords, k = k0 ++ [0] := by decide

theorem hashing_notMatch_rows :
    ∀ k ∈ Hashing.notMatch, ∃ k0 ∈ falseKeywords, k = k0 ++ [0] := by decide

/-- Looking up any index below 8 in a table of 8 literals yields a literal of
the table. -/
theorem table_lookup (tbl : List (List Nat)) (h : tbl.length = 8) (i : Nat) (hi : i < 8) :
    ∃ k ∈ tbl, tbl[i]? = some k := by
  have hi2 : i < tbl.length := by omega
  exact ⟨tbl[i], List.getElem_mem _, List.getElem?_eq_getElem hi2⟩

/-- C6: for every NUL-terminated input whose token is none of the 16 keywords,
whatever its first byte and the signedness of `char`,
`String_parseBoolHashing` returns -1. -/
theorem C6_hashing_rejects (charSigned : Bool) (s : List Nat) (hs : NulTerminated s)
    (hk : token s ∉ trueKeywords ++ falseKeywords) :
    String_parseBoolHashing charSigned (some s) = some (-1) := by
  have ht : token s ∉ trueKeywords := fun h => hk (List.mem_append.2 (Or.inl h))
  have hf : token s ∉ falseKeywords := fun h => hk (List.mem_append.2 (Or.inr h))
  cases s with
  | nil => simp [NulTerminated] at hs
  | cons b tl =>
    generalize hc : charToInt charSigned b = c
    obtain ⟨k, hkm, hget⟩ :=
      table_lookup Hashing.match_ rfl (Hashing.matchIndex c) (and_seven_lt _)
    obtain ⟨k2, hkm2, hget2⟩ :=
      table_lookup Hashing.notMatch rfl (Hashing.notMatchIndex c) (and_seven_lt _)
    obtain ⟨k0, hk0, rfl⟩ := hashing_match_rows k hkm
    obtain ⟨k02, hk02, rfl⟩ := hashing_notMatch_rows k2 hkm2
    obtain ⟨d, hd, hiff⟩ := strcmp_spec (b :: tl) hs k0 [] (trueKeywords_zero_free k0 hk0)
    obtain ⟨d2, hd2, hiff2⟩ :=
      strcmp_spec (b :: tl) hs k02 [] (falseKeywords_zero_free k02 hk02)
    have hd0 : d ≠ 0 := fun h => ht (by rw [hiff.1 h]; exact hk0)
    have hd20 : d2 ≠ 0 := fun h => hf (by rw [hiff2.1 h]; exact hk02)
    simp [String_parseBoolHashing, firstCharOf, hc, hget, hget2, hd, hd2, hd0, hd20]

theorem C6_hashing_rejects_witness :
    NulTerminated (cstr "TRUE") ∧ token (cstr "TRUE") ∉ trueKeywords ++ falseKeywords ∧
      String_parseBoolHashing true (some (cstr "TRUE")) = some (-1) :=
  ⟨by decide, by decide, C6_hashing_rejects true (cstr "TRUE") (by decide) (by decide)⟩

/-! ## Word comparison -/

/-- A successful 8-byte load exhibits the eight bytes read. -/
theorem load64_zero_some (s : List Nat) (word : Nat) (h : load64 s 0 = some word) :
    ∃ b0 b1 b2 b3 b4 b5 b6 b7 tl, s = b0 :: b1 :: b2 :: b3 :: b4 :: b5 :: b6 :: b7 :: tl ∧
      word = b0 + 256 * b1 + 65536 * b2 + 16777216 * b3 + 4294967296 * b4
        + 1099511627776 * b5 + 281474976710656 * b6 + 72057594037927936 * b7 := by
  rcases s with _ | ⟨b0, _ | ⟨b1, _ | ⟨b2, _ | ⟨b3, _ | ⟨b4, _ | ⟨b5, _ | ⟨b6, _ | ⟨b7, tl⟩⟩⟩⟩⟩⟩⟩⟩ <;>
    simp [load64] at h
  exact ⟨b0, b1, b2, b3, b4, b5, b6, b7, tl, rfl, h.symm⟩

theorem load64_zero_of_length (s : List Nat) (h : 8 ≤ s.length) : ∃ word, load64 s 0 = some word := by
  rcases s with _ | ⟨b0, _ | ⟨b1, _ | ⟨b2, _ | ⟨b3, _ | ⟨b4, _ | ⟨b5, _ | ⟨b6, _ | ⟨b7, tl⟩⟩⟩⟩⟩⟩⟩⟩ <;>
    simp at h
  exact ⟨_, rfl⟩

theorem and_fiftysix_mem (x : Nat) : x &&& 56 ∈ [0, 8, 16, 24, 32, 40, 48, 56] := by
  have h : ∀ y < 64, y &&& 56 ∈ [0, 8, 16, 24, 32, 40, 48, 56] := by decide
  have h2 : x &&& 56 = (x % 2 ^ 6) &&& 56 := by
    rw [← Nat.and_pow_two_sub_one_eq_mod, Nat.and_assoc]
    rfl
  rw [h2]
  exact h _ (Nat.mod_lt _ (by decide))

theorem and_onetwenty_mem (x : Nat) :
    x &&& 120 ∈ [0, 8, 16, 24, 32, 40, 48, 56, 64, 72, 80, 88, 96, 104, 112, 120] := by
  have h : ∀ y < 128,
      y &&& 120 ∈ [0, 8, 16, 24, 32, 40, 48, 56, 64, 72, 80, 88, 96, 104, 112, 120] := by decide
  have h2 : x &&& 120 = (x % 2 ^ 7) &&& 120 := by
    rw [← Nat.and_pow_two_sub_one_eq_mod, Nat.and_assoc]
    rfl
  rw [h2]
  exact h _ (Nat.mod_lt _ (by decide))

/-! ## Tokens -/

theorem token_append_zero (k rest : List Nat) (hk : 0 ∉ k) : token (k ++ 0 :: rest) = k := by
  induction k with
  | nil => simp [token]
  | cons a k ih =>
    have ha : a ≠ 0 := fun h => hk (by simp [h])
    have hk2 : 0 ∉ k := fun h => hk (by simp [h])
    rw [List.cons_append, token_cons_ne a _ ha, ih hk2]

theorem zero_not_mem_token (s : List Nat) : 0 ∉ token s := by
  induction s with
  | nil => simp [token]
  | cons a s ih =>
    by_cases ha : a = 0
    · subst ha; simp [token_cons_zero]
    · rw [token_cons_ne a s ha]
      simp only [List.mem_cons, not_or]
      exact ⟨fun h => ha h.symm, ih⟩

/-- A C string is its token, the terminator, and the bytes after it. -/
theorem exists_token_split (s : List Nat) (hs : 0 ∈ s) : ∃ rest, s = token s ++ 0 :: rest := by
  induction s with
  | nil => simp at hs
  | cons a s ih =>
    by_cases ha : a = 0
    · subst ha
      exact ⟨s, by simp [token_cons_zero]⟩
    · have hs2 : 0 ∈ s := by
        rcases List.mem_cons.1 hs with h | h
        · exact absurd h.symm ha
        · exact h
      obtain ⟨rest, hr⟩ := ih hs2
      refine ⟨rest, ?_⟩
      rw [token_cons_ne a s ha, List.cons_append, ← hr]

/-- On two C strings `strcmp` returns, and returns 0 exactly when the two
tokens are equal. -/
theorem strcmp_token (s t : List Nat) (hs : 0 ∈ s) (ht : 0 ∈ t) :
    ∃ d, strcmp s t = some d ∧ (d = 0 ↔ token s = token t) := by
  obtain ⟨rest, hr⟩ := exists_token_split t ht
  have h := strcmp_spec s hs (token t) rest (zero_not_mem_token t)
  rw [← hr] at h
  exact h

theorem firstCharOf_of_mem (charSigned : Bool) (s : List Nat) (hs : 0 ∈ s) :
    firstCharOf charSigned s = some (charToInt charSigned (s.headD 0)) := by
  cases s with
  | nil => simp at hs
  | cons b tl => rfl

/-! ## Values of the two `strcmp` hash strategies -/

/-- Value of `String_parseBoolHashing` on a C string: the token is compared
with the one keyword that the first character selects in each table. -/
theorem hashing_value (charSigned : Bool) (s : List Nat) (hs : NulTerminated s) :
    ∃ k ∈ Hashing.match_, ∃ k2 ∈ Hashing.notMatch,
      Hashing.match_[Hashing.matchIndex (charToInt charSigned (s.headD 0))]? = some k ∧
      Hashing.notMatch[Hashing.notMatchIndex (charToInt charSigned (s.headD 0))]? = some k2 ∧
      String_parseBoolHashing charSigned (some s)
        = some (if token s = token k then 1 else if token s = token k2 then 0 else -1) := by
  obtain ⟨k, hkm, hget⟩ := table_lookup Hashing.match_ rfl
    (Hashing.matchIndex (charToInt charSigned (s.headD 0))) (and_seven_lt _)
  obtain ⟨k2, hkm2, hget2⟩ := table_lookup Hashing.notMatch rfl
    (Hashing.notMatchIndex (charToInt charSigned (s.headD 0))) (and_seven_lt _)
  have hz : ∀ k ∈ Hashing.match_, 0 ∈ k := by decide
  have hz2 : ∀ k ∈ Hashing.notMatch, 0 ∈ k := by decide
  obtain ⟨d, hd, hiff⟩ := strcmp_token s k hs (hz k hkm)
  obtain ⟨d2, hd2, hiff2⟩ := strcmp_token s k2 hs (hz2 k2 hkm2)
  refine ⟨k, hkm, k2, hkm2, hget, hget2, ?_⟩
  simp only [String_parseBoolHashing, firstCharOf_of_mem charSigned s hs, Option.bind_eq_bind,
    Option.some_bind, hget, hget2, hd, hd2, hiff, hiff2]
  split_ifs <;> rfl

theorem packed_match_terminated :
    ∀ o ∈ [0, 8, 16, 24, 32, 40, 48, 56], 0 ∈ Packed.match_.drop o := by decide

theorem packed_notMatch_terminated :
    ∀ o ∈ [0, 8, 16, 24, 32, 40, 48, 56, 64, 72, 80, 88, 96, 104, 112, 120],
      0 ∈ Packed.notMatch.drop o := by decide

/-- Value of `String_parseBoolPacking` on a C string: the token is compared
with the C string that starts at the selected offset of each literal. -/
theorem packing_value (charSigned : Bool) (s : List Nat) (hs : NulTerminated s) :
    String_parseBoolPacking charSigned (some s)
      = some (if token s = token (Packed.match_.drop
                  (Packed.matchOffset (charToInt charSigned (s.headD 0)))) then 1
          else if token s = token (Packed.notMatch.drop
                  (Packed.notMatchOffset (charToInt charSigned (s.headD 0)))) then 0
          else -1) := by
  generalize hc : charToInt charSigned (s.headD 0) = c
  obtain ⟨d, hd, hiff⟩ := strcmp_token s (Packed.match_.drop (Packed.matchOffset c)) hs
    (packed_match_terminated _ (and_fiftysix_mem _))
  obtain ⟨d2, hd2, hiff2⟩ := strcmp_token s (Packed.notMatch.drop (Packed.notMatchOffset c)) hs
    (packed_notMatch_terminated _ (and_onetwenty_mem _))
  simp only [String_parseBoolPacking, firstCharOf_of_mem charSigned s hs, Option.bind_eq_bind,
    Option.some_bind, hc, hd, hd2, hiff, hiff2]
  split_ifs <;> rfl

theorem token_cons_eq_nil (b : Nat) (s : List Nat) : token (b :: s) = [] ↔ b = 0 := by
  by_cases hb : b = 0
  · subst hb; simp [token_cons_zero]
  · simp [token_cons_ne b s hb, hb]

theorem token_cons_eq_cons (b : Nat) (s : List Nat) (a : Nat) (k : List Nat) :
    token (b :: s) = a :: k ↔ (b = a ∧ b ≠ 0) ∧ token s = k := by
  by_cases hb : b = 0
  · subst hb; simp [token_cons_zero]
  · simp [token_cons_ne b s hb, hb]

/-! ## Word comparison against the packed slots -/

set_option maxRecDepth 8000 in
/-- The eight slots of `match`: both length tables can be read at the slot
offset, they describe the same mask (the low `bits` bits, a positive number
of whole bytes), and the masked input word equals the slot word exactly when
the token is the keyword stored in the slot. -/
theorem true_slot (s : List Nat) (hb : IsBytes s) (word : Nat)
    (hw : load64 s 0 = some word) (offset : Nat)
    (ho : offset ∈ [0, 8, 16, 24, 32, 40, 48, 56]) :
    ∃ bits slot, Intrinsic.lengths[offset]? = some bits ∧
      Reinterpret.lengths[offset]? = some (64 - bits) ∧ 0 < bits ∧ bits ≤ 64 ∧
      load64 Packed.match_ offset = some slot ∧
      (word % 2 ^ bits = slot ↔ token s = token (Packed.match_.drop offset)) := by
  obtain ⟨b0, b1, b2, b3, b4, b5, b6, b7, tl, rfl, rfl⟩ := load64_zero_some s word hw
  simp only [IsBytes, List.forall_mem_cons] at hb
  obtain ⟨h0, h1, h2, h3, h4, h5, h6, h7, -⟩ := hb
  simp only [List.mem_cons, List.mem_singleton, List.not_mem_nil, or_false] at ho
  rcases ho with rfl | rfl | rfl | rfl | rfl | rfl | rfl | rfl
  · refine ⟨56, 111516181425733, by decide, by decide, by decide, by decide, by decide, ?_⟩
    have e : token (List.drop 0 Packed.match_) = [69, 110, 97, 98, 108, 101] := by decide
    rw [e]
    constructor
    · intro h
      have hv : b0 = 69 ∧ b1 = 110 ∧ b2 = 97 ∧ b3 = 98 ∧ b4 = 108 ∧ b5 = 101 ∧ b6 = 0 := by omega
      obtain ⟨rfl, rfl, rfl, rfl, rfl, rfl, rfl⟩ := hv
      simp [token]
    · intro h
      simp only [token_cons_eq_cons, token_cons_eq_nil] at h
      obtain ⟨rfl, rfl, rfl, rfl, rfl, rfl, rfl⟩ : b0 = 69 ∧ b1 = 110 ∧ b2 = 97 ∧ b3 = 98 ∧ b4 = 108 ∧ b5 = 101 ∧ b6 = 0 := by
        simp only [and_assoc] at h
        tauto
      omega
  · refine ⟨24, 28239, by decide, by decide, by decide, by decide, by decide, ?_⟩
    have e : token (List.drop 8 Packed.match_) = [79, 110] := by decide
    rw [e]
    constructor
    · intro h
      have hv : b0 = 79 ∧ b1 = 110 ∧ b2 = 0 := by omega
      obtain ⟨rfl, rfl, rfl⟩ := hv
      simp [token]
    · intro h
      simp only [token_cons_eq_cons, token_cons_eq_nil] at h
      obtain ⟨rfl, rfl, rfl⟩ : b0 = 79 ∧ b1 = 110 ∧ b2 = 0 := by
        simp only [and_assoc] at h
        tauto
      omega
  · refine ⟨40, 1702195796, by decide, by decide, by decide, by decide, by decide, ?_⟩
    have e : token (List.drop 16 Packed.match_) = [84, 114, 117, 101] := by decide
    rw [e]
    constructor
    · intro h
      have hv : b0 = 84 ∧ b1 = 114 ∧ b2 = 117 ∧ b3 = 101 ∧ b4 = 0 := by omega
      obtain ⟨rfl, rfl, rfl, rfl, rfl⟩ := hv
      simp [token]
    · intro h
      simp only [token_cons_eq_cons, token_cons_eq_nil] at h
      obtain ⟨rfl, rfl, rfl, rfl, rfl⟩ : b0 = 84 ∧ b1 = 114 ∧ b2 = 117 ∧ b3 = 101 ∧ b4 = 0 := by
        simp only [and_assoc] at h
        tauto
      omega
  · refine ⟨32, 7562585, by decide, by decide, by decide, by decide, by decide, ?_⟩
    have e : token (List.drop 24 Packed.match_) = [89, 101, 115] := by decide
    rw [e]
    constructor
    · intro h
      have hv : b0 = 89 ∧ b1 = 101 ∧ b2 = 115 ∧ b3 = 0 := by omega
      obtain ⟨rfl, rfl, rfl, rfl⟩ := hv
      simp [token]
    · intro h
      simp only [token_cons_eq_cons, token_cons_eq_nil] at h
      obtain ⟨rfl, rfl, rfl, rfl⟩ : b0 = 89 ∧ b1 = 101 ∧ b2 = 115 ∧ b3 = 0 := by
        simp only [and_assoc] at h
        tauto
      omega
  · refine ⟨56, 111516181425765, by decide, by decide, by decide, by decide, by decide, ?_⟩
    have e : token (List.drop 32 Packed.match_) = [101, 110, 97, 98, 108, 101] := by decide
    rw [e]
    constructor
    · intro h
      have hv : b0 = 101 ∧ b1 = 110 ∧ b2 = 97 ∧ b3 = 98 ∧ b4 = 108 ∧ b5 = 101 ∧ b6 = 0 := by omega
      obtain ⟨rfl, rfl, rfl, rfl, rfl, rfl, rfl⟩ := hv
      simp [token]
    · intro h
      simp only [token_cons_eq_cons, token_cons_eq_nil] at h
      obtain ⟨rfl, rfl, rfl, rfl, rfl, rfl, rfl⟩ : b0 = 101 ∧ b1 = 110 ∧ b2 = 97 ∧ b3 = 98 ∧ b4 = 108 ∧ b5 = 101 ∧ b6 = 0 := by
        simp only [and_assoc] at h
        tauto
      omega
  · refine ⟨24, 28271, by decide, by decide, by decide, by decide, by decide, ?_⟩
    have e : token (List.drop 40 Packed.match_) = [111, 110] := by decide
    rw [e]
    constructor
    · intro h
      have hv : b0 = 111 ∧ b1 = 110 ∧ b2 = 0 := by omega
      obtain ⟨rfl, rfl, rfl⟩ := hv
      simp [token]
    · intro h
      simp only [token_cons_eq_cons, token_cons_eq_nil] at h
      obtain ⟨rfl, rfl, rfl⟩ : b0 = 111 ∧ b1 = 110 ∧ b2 = 0 := by
        simp only [and_assoc] at h
        tauto
      omega
  · refine ⟨40, 1702195828, by decide, by decide, by decide, by decide, by decide, ?_⟩
    have e : token (List.drop 48 Packed.match_) = [116, 114, 117, 101] := by decide
    rw [e]
    constructor
    · intro h
      have hv : b0 = 116 ∧ b1 = 114 ∧ b2 = 117 ∧ b3 = 101 ∧ b4 = 0 := by omega
      obtain ⟨rfl, rfl, rfl, rfl, rfl⟩ := hv
      simp [token]
    · intro h
      simp only [token_cons_eq_cons, token_cons_eq_nil] at h
      obtain ⟨rfl, rfl, rfl, rfl, rfl⟩ : b0 = 116 ∧ b1 = 114 ∧ b2 = 117 ∧ b3 = 101 ∧ b4 = 0 := by
        simp only [and_assoc] at h
        tauto
      omega
  · refine ⟨32, 7562617, by decide, by decide, by decide, by decide, by decide, ?_⟩
    have e : token (List.drop 56 Packed.match_) = [121, 101, 115] := by decide
    rw [e]
    constructor
    · intro h
      have hv : b0 = 121 ∧ b1 = 101 ∧ b2 = 115 ∧ b3 = 0 := by omega
      obtain ⟨rfl, rfl, rfl, rfl⟩ := hv
      simp [token]
    · intro h
      simp only [token_cons_eq_cons, token_cons_eq_nil] at h
      obtain ⟨rfl, rfl, rfl, rfl⟩ : b0 = 121 ∧ b1 = 101 ∧ b2 = 115 ∧ b3 = 0 := by
        simp only [and_assoc] at h
        tauto
      omega

set_option maxRecDepth 8000 in
/-- The eight keyword slots of `notMatch`: as `true_slot`. -/
theorem false_slot (s : List Nat) (hb : IsBytes s) (word : Nat)
    (hw : load64 s 0 = some word) (offset : Nat) (ho : offset ∈ Packed.keywordOffsets) :
    ∃ bits slot, Intrinsic.lengths2[offset]? = some bits ∧
      Reinterpret.lengths2[offset]? = some (64 - bits) ∧ 0 < bits ∧ bits ≤ 64 ∧
      load64 Packed.notMatch offset = some slot ∧
      (word % 2 ^ bits = slot ↔ token s = token (Packed.notMatch.drop offset)) := by
  obtain ⟨b0, b1, b2, b3, b4, b5, b6, b7, tl, rfl, rfl⟩ := load64_zero_some s word hw
  simp only [IsBytes, List.forall_mem_cons] at hb
  obtain ⟨h0, h1, h2, h3, h4, h5, h6, h7, -⟩ := hb
  simp only [Packed.keywordOffsets, List.mem_cons, List.mem_singleton, List.not_mem_nil, or_false] at ho
  rcases ho with rfl | rfl | rfl | rfl | rfl | rfl | rfl | rfl
  · refine ⟨64, 28548142445324612, by decide, by decide, by decide, by decide, by decide, ?_⟩
    have e : token (List.drop 0 Packed.notMatch) = [68, 105, 115, 97, 98, 108, 101] := by decide
    rw [e]
    constructor
    · intro h
      have hv : b0 = 68 ∧ b1 = 105 ∧ b2 = 115 ∧ b3 = 97 ∧ b4 = 98 ∧ b5 = 108 ∧ b6 = 101 ∧ b7 = 0 := by omega
      obtain ⟨rfl, rfl, rfl, rfl, rfl, rfl, rfl, rfl⟩ := hv
      simp [token]
    · intro h
      simp only [token_cons_eq_cons, token_cons_eq_nil] at h
      obtain ⟨rfl, rfl, rfl, rfl, rfl, rfl, rfl, rfl⟩ : b0 = 68 ∧ b1 = 105 ∧ b2 = 115 ∧ b3 = 97 ∧ b4 = 98 ∧ b5 = 108 ∧ b6 = 101 ∧ b7 = 0 := by
        simp only [and_assoc] at h
        tauto
      omega
  · refine ⟨48, 435728179526, by decide, by decide, by decide, by decide, by decide, ?_⟩
    have e : token (List.drop 8 Packed.notMatch) = [70, 97, 108, 115, 101] := by decide
    rw [e]
    constructor
    · intro h
      have hv : b0 = 70 ∧ b1 = 97 ∧ b2 = 108 ∧ b3 = 115 ∧ b4 = 101 ∧ b5 = 0 := by omega
      obtain ⟨rfl, rfl, rfl, rfl, rfl, rfl⟩ := hv
      simp [token]
    · intro h
      simp only [token_cons_eq_cons, token_cons_eq_nil] at h
      obtain ⟨rfl, rfl, rfl, rfl, rfl, rfl⟩ : b0 = 70 ∧ b1 = 97 ∧ b2 = 108 ∧ b3 = 115 ∧ b4 = 101 ∧ b5 = 0 := by
        simp only [and_assoc] at h
        tauto
      omega
  · refine ⟨24, 28494, by decide, by decide, by decide, by decide, by decide, ?_⟩
    have e : token (List.drop 16 Packed.notMatch) = [78, 111] := by decide
    rw [e]
    constructor
    · intro h
      have hv : b0 = 78 ∧ b1 = 111 ∧ b2 = 0 := by omega
      obtain ⟨rfl, rfl, rfl⟩ := hv
      simp [token]
    · intro h
      simp only [token_cons_eq_cons, token_cons_eq_nil] at h
      obtain ⟨rfl, rfl, rfl⟩ : b0 = 78 ∧ b1 = 111 ∧ b2 = 0 := by
        simp only [and_assoc] at h
        tauto
      omega
  · refine ⟨32, 6710863, by decide, by decide, by decide, by decide, by decide, ?_⟩
    have e : token (List.drop 24 Packed.notMatch) = [79, 102, 102] := by decide
    rw [e]
    constructor
    · intro h
      have hv : b0 = 79 ∧ b1 = 102 ∧ b2 = 102 ∧ b3 = 0 := by omega
      obtain ⟨rfl, rfl, rfl, rfl⟩ := hv
      simp [token]
    · intro h
      simp only [token_cons_eq_cons, token_cons_eq_nil] at h
      obtain ⟨rfl, rfl, rfl, rfl⟩ : b0 = 79 ∧ b1 = 102 ∧ b2 = 102 ∧ b3 = 0 := by
        simp only [and_assoc] at h
        tauto
      omega
  · refine ⟨64, 28548142445324644, by decide, by decide, by decide, by decide, by decide, ?_⟩
    have e : token (List.drop 56 Packed.notMatch) = [100, 105, 115, 97, 98, 108, 101] := by decide
    rw [e]
    constructor
    · intro h
      have hv : b0 = 100 ∧ b1 = 105 ∧ b2 = 115 ∧ b3 = 97 ∧ b4 = 98 ∧ b5 = 108 ∧ b6 = 101 ∧ b7 = 0 := by omega
      obtain ⟨rfl, rfl, rfl, rfl, rfl, rfl, rfl, rfl⟩ := hv
      simp [token]
    · intro h
      simp only [token_cons_eq_cons, token_cons_eq_nil] at h
      obtain ⟨rfl, rfl, rfl, rfl, rfl, rfl, rfl, rfl⟩ : b0 = 100 ∧ b1 = 105 ∧ b2 = 115 ∧ b3 = 97 ∧ b4 = 98 ∧ b5 = 108 ∧ b6 = 101 ∧ b7 = 0 := by
        simp only [and_assoc] at h
        tauto
      omega
  · refine ⟨48, 435728179558, by decide, by decide, by decide, by decide, by decide, ?_⟩
    have e : token (List.drop 64 Packed.notMatch) = [102, 97, 108, 115, 101] := by decide
    rw [e]
    constructor
    · intro h
      have hv : b0 = 102 ∧ b1 = 97 ∧ b2 = 108 ∧ b3 = 115 ∧ b4 = 101 ∧ b5 = 0 := by omega
      obtain ⟨rfl, rfl, rfl, rfl, rfl, rfl⟩ := hv
      simp [token]
    · intro h
      simp only [token_cons_eq_cons, token_cons_eq_nil] at h
      obtain ⟨rfl, rfl, rfl, rfl, rfl, rfl⟩ : b0 = 102 ∧ b1 = 97 ∧ b2 = 108 ∧ b3 = 115 ∧ b4 = 101 ∧ b5 = 0 := by
        simp only [and_assoc] at h
        tauto
      omega
  · refine ⟨24, 28526, by decide, by decide, by decide, by decide, by decide, ?_⟩
    have e : token (List.drop 72 Packed.notMatch) = [110, 111] := by decide
    rw [e]
    constructor
    · intro h
      have hv : b0 = 110 ∧ b1 = 111 ∧ b2 = 0 := by omega
      obtain ⟨rfl, rfl, rfl⟩ := hv
      simp [token]
    · intro h
      simp only [token_cons_eq_cons, token_cons_eq_nil] at h
      obtain ⟨rfl, rfl, rfl⟩ : b0 = 110 ∧ b1 = 111 ∧ b2 = 0 := by
        simp only [and_assoc] at h
        tauto
      omega
  · refine ⟨32, 6710895, by decide, by decide, by decide, by decide, by decide, ?_⟩
    have e : token (List.drop 80 Packed.notMatch) = [111, 102, 102] := by decide
    rw [e]
    constructor
    · intro h
      have hv : b0 = 111 ∧ b1 = 102 ∧ b2 = 102 ∧ b3 = 0 := by omega
      obtain ⟨rfl, rfl, rfl, rfl⟩ := hv
      simp [token]
    · intro h
      simp only [token_cons_eq_cons, token_cons_eq_nil] at h
      obtain ⟨rfl, rfl, rfl, rfl⟩ : b0 = 111 ∧ b1 = 102 ∧ b2 = 102 ∧ b3 = 0 := by
        simp only [and_assoc] at h
        tauto
      omega

set_option maxRecDepth 8000 in
/-- The eight filler slots of `notMatch`: the intrinsic variant keeps no bit
there, the shift variant shifts by the full width, and the slot word is not 0. -/
theorem filler_slot (offset : Nat) (ho : offset ∈ Packed.fillerOffsets) :
    ∃ slot, Intrinsic.lengths2[offset]? = some 0 ∧ Reinterpret.lengths2[offset]? = some 64 ∧
      load64 Packed.notMatch offset = some slot ∧ slot ≠ 0 := by
  simp only [Packed.fillerOffsets, List.mem_cons, List.mem_singleton, List.not_mem_nil, or_false] at ho
  rcases ho with rfl | rfl | rfl | rfl | rfl | rfl | rfl | rfl <;>
    exact ⟨_, by decide, by decide, rfl, by decide⟩

theorem and_onetwenty_cases (x : Nat) : x &&& 120 ∈ Packed.keywordOffsets ∨ x &&& 120 ∈ Packed.fillerOffsets := by
  have h := and_onetwenty_mem x
  simp only [Packed.keywordOffsets, Packed.fillerOffsets, List.mem_cons, List.mem_singleton, List.not_mem_nil,
    or_false] at h ⊢
  omega

theorem load64_lt (s : List Nat) (hb : IsBytes s) (word : Nat) (hw : load64 s 0 = some word) :
    word < 2 ^ 64 := by
  obtain ⟨b0, b1, b2, b3, b4, b5, b6, b7, tl, rfl, rfl⟩ := load64_zero_some s word hw
  simp only [IsBytes, List.forall_mem_cons] at hb
  obtain ⟨h0, h1, h2, h3, h4, h5, h6, h7, -⟩ := hb
  omega

/-- The intrinsic keeps the low `bits` bits of a 64-bit word. -/
theorem bzhi_eq_mod (word bits : Nat) (hw : word < 2 ^ 64) (hbits : bits ≤ 64) :
    _bzhi_u64 word bits = word % 2 ^ bits := by
  unfold _bzhi_u64
  have h256 : bits % 256 = bits := Nat.mod_eq_of_lt (by omega)
  rw [h256]
  by_cases h : bits < 64
  · simp [h]
  · have h64 : bits = 64 := by omega
    subst h64
    rw [if_neg h, Nat.mod_eq_of_lt hw]

theorem mask_value (n : Nat) (hn : n < 64) : 18446744073709551615 >>> n = 2 ^ (64 - n) - 1 := by
  have h : ∀ m < 64, 18446744073709551615 >>> m = 2 ^ (64 - m) - 1 := by decide
  exact h n hn

/-- The shifted mask keeps the low `bits` bits, for a positive number of bits. -/
theorem maskShr_eq_mod (wideShift word bits : Nat) (hpos : 0 < bits) (hbits : bits ≤ 64) :
    word &&& maskShr wideShift (64 - bits) = word % 2 ^ bits := by
  unfold maskShr
  have h : 64 - bits < 64 := by omega
  rw [if_pos h, mask_value _ h, Nat.and_pow_two_sub_one_eq_mod]
  have e : 64 - (64 - bits) = bits := by omega
  rw [e]

/-! ## Values of the two word-compare strategies -/

theorem headD_of_length (charSigned : Bool) (s : List Nat) (hlen : 8 ≤ s.length) :
    firstCharOf charSigned s = some (charToInt charSigned (s.headD 0)) := by
  cases s with
  | nil => simp at hlen
  | cons b tl => rfl

/-- Value of `String_parseBoolReinterpretIntrinsic` on 8 or more bytes: 1 when
the token is the keyword of the selected `match` slot, else 0 when the selected
`notMatch` slot holds a keyword and the token is that keyword, else -1. -/
theorem intrinsic_value (charSigned : Bool) (s : List Nat) (hb : IsBytes s)
    (hlen : 8 ≤ s.length) :
    String_parseBoolReinterpretIntrinsic charSigned (some s)
      = some (if token s = token (Packed.match_.drop
                  (Packed.matchOffset (charToInt charSigned (s.headD 0)))) then 1
          else if Packed.notMatchOffset (charToInt charSigned (s.headD 0)) ∈ Packed.keywordOffsets
              ∧ token s = token (Packed.notMatch.drop
                  (Packed.notMatchOffset (charToInt charSigned (s.headD 0)))) then 0
          else -1) := by
  obtain ⟨word, hw⟩ := load64_zero_of_length s hlen
  have hlt := load64_lt s hb word hw
  generalize hc : charToInt charSigned (s.headD 0) = c
  obtain ⟨bits, slot, hl, -, -, hle, hsl, hiff⟩ :=
    true_slot s hb word hw (Packed.matchOffset c) (and_fiftysix_mem _)
  rw [← bzhi_eq_mod word bits hlt hle] at hiff
  simp only [String_parseBoolReinterpretIntrinsic, headD_of_length charSigned s hlen, hc, hw,
    Option.bind_eq_bind, Option.some_bind, hl, hsl, hiff]
  by_cases h1 : token s = token (Packed.match_.drop (Packed.matchOffset c))
  · simp only [if_pos h1]
  · simp only [if_neg h1]
    rcases and_onetwenty_cases (toU32 (sar (shl (c - 57) 3 - c) 2)) with hk | hfill
    · obtain ⟨bits2, slot2, hl2, -, -, hle2, hsl2, hiff2⟩ :=
        false_slot s hb word hw (Packed.notMatchOffset c) hk
      rw [← bzhi_eq_mod word bits2 hlt hle2] at hiff2
      have hk2 : Packed.notMatchOffset c ∈ Packed.keywordOffsets := hk
      simp only [hl2, hsl2, Option.some_bind, hiff2, hk2, true_and]
      split_ifs <;> rfl
    · obtain ⟨slot2, hl2, -, hsl2, hne⟩ := filler_slot (Packed.notMatchOffset c) hfill
      have hnk : Packed.notMatchOffset c ∉ Packed.keywordOffsets := by
        have hd : ∀ o ∈ Packed.fillerOffsets, o ∉ Packed.keywordOffsets := by decide
        exact hd _ hfill
      have hz : _bzhi_u64 word 0 = 0 := by simp [_bzhi_u64, Nat.mod_one]
      have hne2 : ¬ (0 = slot2) := fun h => hne h.symm
      simp only [hl2, hsl2, Option.some_bind, hz, hnk, false_and, if_false, hne2]

/-- Value of `String_parseBoolReinterpret` on 8 or more bytes: as
`intrinsic_value` at the keyword slots; at a filler slot of `notMatch` the
input word is masked with the value of `0xFFFFFFFFFFFFFFFF >> 64`. -/
theorem reinterpret_value (charSigned : Bool) (wideShift : Nat) (s : List Nat)
    (hb : IsBytes s) (hlen : 8 ≤ s.length) :
    String_parseBoolReinterpret charSigned wideShift (some s)
      = some (if token s = token (Packed.match_.drop
                  (Packed.matchOffset (charToInt charSigned (s.headD 0)))) then 1
          else if Packed.notMatchOffset (charToInt charSigned (s.headD 0)) ∈ Packed.keywordOffsets
              ∧ token s = token (Packed.notMatch.drop
                  (Packed.notMatchOffset (charToInt charSigned (s.headD 0)))) then 0
          else if Packed.notMatchOffset (charToInt charSigned (s.headD 0)) ∈ Packed.fillerOffsets
              ∧ (load64 s 0).map (fun word => word &&& wideShift)
                = load64 Packed.notMatch
                    (Packed.notMatchOffset (charToInt charSigned (s.headD 0))) then 0
          else -1) := by
  obtain ⟨word, hw⟩ := load64_zero_of_length s hlen
  generalize hc : charToInt charSigned (s.headD 0) = c
  obtain ⟨bits, slot, -, hl, hpos, hle, hsl, hiff⟩ :=
    true_slot s hb word hw (Packed.matchOffset c) (and_fiftysix_mem _)
  rw [← maskShr_eq_mod wideShift word bits hpos hle] at hiff
  simp only [String_parseBoolReinterpret, headD_of_length charSigned s hlen, hc, hw,
    Option.bind_eq_bind, Option.some_bind, hl, hsl, hiff, Option.map_some']
  by_cases h1 : token s = token (Packed.match_.drop (Packed.matchOffset c))
  · simp only [if_pos h1]
  · simp only [if_neg h1]
    rcases and_onetwenty_cases (toU32 (sar (shl (c - 57) 3 - c) 2)) with hk | hfill
    · obtain ⟨bits2, slot2, -, hl2, hpos2, hle2, hsl2, hiff2⟩ :=
        false_slot s hb word hw (Packed.notMatchOffset c) hk
      rw [← maskShr_eq_mod wideShift word bits2 hpos2 hle2] at hiff2
      have hk2 : Packed.notMatchOffset c ∈ Packed.keywordOffsets := hk
      have hnf : Packed.notMatchOffset c ∉ Packed.fillerOffsets := by
        have hd : ∀ o ∈ Packed.keywordOffsets, o ∉ Packed.fillerOffsets := by decide
        exact hd _ hk
      simp only [hl2, hsl2, Option.some_bind, hiff2, hk2, true_and, hnf, false_and, if_false]
      split_ifs <;> rfl
    · obtain ⟨slot2, -, hl2, hsl2, hne⟩ := filler_slot (Packed.notMatchOffset c) hfill
      have hf2 : Packed.notMatchOffset c ∈ Packed.fillerOffsets := hfill
      have hnk : Packed.notMatchOffset c ∉ Packed.keywordOffsets := by
        have hd : ∀ o ∈ Packed.fillerOffsets, o ∉ Packed.keywordOffsets := by decide
        exact hd _ hfill
      have hm : maskShr wideShift 64 = wideShift := by simp [maskShr]
      simp only [hl2, hsl2, Option.some_bind, hnk, false_and, if_false, hf2, true_and, hm,
        Option.some.injEq]
      split_ifs <;> rfl

/-! ## Value of the character loop -/

/-- On a C string the inner loop ends inside the storage, with `result` set
exactly when the keyword is a prefix of the token. -/
theorem whileLoop_spec (k : List Nat) (hk : 0 ∉ k) :
    ∀ s : List Nat, 0 ∈ s →
      Loop.whileLoop (k ++ [0]) s = some (if k.isPrefixOf (token s) then 1 else 0) := by
  induction k with
  | nil => intro s _; simp [Loop.whileLoop]
  | cons a k ih =>
    intro s hs
    have ha : a ≠ 0 := fun h => hk (by simp [h])
    have hk2 : 0 ∉ k := fun h => hk (by simp [h])
    cases s with
    | nil => simp at hs
    | cons c s =>
      by_cases hc : c = a
      · subst hc
        have hs2 : 0 ∈ s := by
          rcases List.mem_cons.1 hs with h | h
          · exact absurd h.symm ha
          · exact h
        simp [Loop.whileLoop, ha, ih hk2 s hs2, token_cons_ne c s ha, List.isPrefixOf]
      · by_cases hc0 : c = 0
        · subst hc0
          simp [Loop.whileLoop, ha, hc, token_cons_zero, List.isPrefixOf]
        · have hne : (a == c) = false := by
            simp only [beq_eq_false_iff_ne, ne_eq]
            exact fun h => hc h.symm
          simp [Loop.whileLoop, ha, hc, token_cons_ne c s hc0, List.isPrefixOf, hne]

theorem forLoop_spec (s : List Nat) (hs : 0 ∈ s) (rows : List (List Nat × Int))
    (hrows : ∀ r ∈ rows, 0 ∉ r.1) :
    Loop.forLoop s (rows.map fun r => (r.1 ++ [0], r.2)) = some (Loop.scan rows (token s)) := by
  induction rows with
  | nil => simp [Loop.forLoop, Loop.scan]
  | cons r rows ih =>
    obtain ⟨k, v⟩ := r
    have h1 := whileLoop_spec k (hrows (k, v) (by simp)) s hs
    have h2 := ih (fun r hr => hrows r (by simp [hr]))
    simp only [List.map_cons, Loop.forLoop, h1, Loop.scan]
    by_cases hp : k.isPrefixOf (token s) = true
    · simp [hp]
    · simp [hp, h2]

/-- Value of `String_parseBoolLoop` on a C string: the class of the first row
whose keyword is a prefix of the token. -/
theorem loop_value (s : List Nat) (hs : NulTerminated s) :
    String_parseBoolLoop (some s) = some (Loop.scan Loop.rows (token s)) := by
  have h := forLoop_spec s hs Loop.rows (by decide)
  have e : (Loop.rows.map fun r => (r.1 ++ [0], r.2)) = Loop.match_.zip Loop.value := by decide
  rw [e] at h
  exact h

/-! ## The keywords are classified as the contract says -/

theorem keywords_bytes : ∀ k ∈ trueKeywords ++ falseKeywords, IsBytes k ∧ k ≠ [] ∧ 0 ∉ k := by
  decide

theorem scan_true : ∀ k ∈ trueKeywords, Loop.scan Loop.rows k = 1 := by decide

theorem scan_false : ∀ k ∈ falseKeywords, Loop.scan Loop.rows k = 0 := by decide

theorem hashing_true_row : ∀ k ∈ trueKeywords, ∀ sg : Bool,
    Hashing.match_[Hashing.matchIndex (charToInt sg (k.headD 0))]? = some (k ++ [0]) := by
  decide

theorem hashing_false_row : ∀ k ∈ falseKeywords, ∀ sg : Bool,
    Hashing.notMatch[Hashing.notMatchIndex (charToInt sg (k.headD 0))]? = some (k ++ [0]) := by
  decide

theorem hashing_match_tokens : ∀ k ∈ Hashing.match_, token k ∈ trueKeywords := by decide

theorem packed_true_slot : ∀ k ∈ trueKeywords, ∀ sg : Bool,
    token (Packed.match_.drop (Packed.matchOffset (charToInt sg (k.headD 0)))) = k := by
  decide

set_option maxRecDepth 8000 in
theorem packed_false_slot : ∀ k ∈ falseKeywords, ∀ sg : Bool,
    Packed.notMatchOffset (charToInt sg (k.headD 0)) ∈ Packed.keywordOffsets ∧
    token (Packed.notMatch.drop (Packed.notMatchOffset (charToInt sg (k.headD 0)))) = k := by
  decide

theorem packed_match_tokens :
    ∀ o ∈ [0, 8, 16, 24, 32, 40, 48, 56], token (Packed.match_.drop o) ∈ trueKeywords := by
  decide

set_option maxRecDepth 8000 in
theorem packed_notMatch_tokens :
    ∀ o ∈ Packed.keywordOffsets, token (Packed.notMatch.drop o) ∈ falseKeywords := by
  decide

/-- A keyword stored with its terminator: the storage is a C string of bytes
whose token is the keyword and whose first byte is the keyword's. -/
theorem keyword_storage (k : List Nat) (hk : k ∈ trueKeywords ++ falseKeywords)
    (rest : List Nat) (hb : IsBytes rest) :
    NulTerminated (k ++ 0 :: rest) ∧ IsBytes (k ++ 0 :: rest) ∧ token (k ++ 0 :: rest) = k ∧
      (k ++ 0 :: rest).headD 0 = k.headD 0 := by
  obtain ⟨hkb, hne, hz⟩ := keywords_bytes k hk
  refine ⟨by simp [NulTerminated], ?_, token_append_zero k rest hz, ?_⟩
  · intro b hmem
    rcases List.mem_append.1 hmem with h | h
    · exact hkb b h
    · rcases List.mem_cons.1 h with h | h
      · omega
      · exact hb b h
  · cases k with
    | nil => exact absurd rfl hne
    | cons a k => rfl

/-- C1: for every true-ish keyword stored with its terminator in at least 8
bytes, whatever bytes follow the terminator, each of the seven strategies
returns 1. -/
theorem C1_true_keywords (k : List Nat) (hk : k ∈ trueKeywords) (rest : List Nat)
    (hb : IsBytes rest) (hlen : 8 ≤ (k ++ 0 :: rest).length) (charSigned : Bool)
    (wideShift : Nat) :
    String_parseBoolLoop (some (k ++ 0 :: rest)) = some 1 ∧
    String_parseBoolGoto (some (k ++ 0 :: rest)) = some 1 ∧
    String_parseBoolStrcmp (some (k ++ 0 :: rest)) = some 1 ∧
    String_parseBoolHashing charSigned (some (k ++ 0 :: rest)) = some 1 ∧
    String_parseBoolPacking charSigned (some (k ++ 0 :: rest)) = some 1 ∧
    String_parseBoolReinterpret charSigned wideShift (some (k ++ 0 :: rest)) = some 1 ∧
    String_parseBoolReinterpretIntrinsic charSigned (some (k ++ 0 :: rest)) = some 1 := by
  obtain ⟨hs, hbs, htok, hhead⟩ :=
    keyword_storage k (List.mem_append.2 (Or.inl hk)) rest hb
  have hloop : String_parseBoolLoop (some (k ++ 0 :: rest)) = some 1 := by
    rw [loop_value _ hs, htok, scan_true k hk]
  have hslot := packed_true_slot k hk charSigned
  refine ⟨hloop, ?_, ?_, ?_, ?_, ?_, ?_⟩
  · rw [goto_eq_loop, hloop]
  · rw [strcmp_chain_value _ hs, htok, if_pos hk]
  · obtain ⟨k1, -, k2, -, h1, -, hv⟩ := hashing_value charSigned _ hs
    rw [hhead, hashing_true_row k hk charSigned] at h1
    have e : k1 = k ++ [0] := (Option.some.inj h1).symm
    have hz : 0 ∉ k := (keywords_bytes k (List.mem_append.2 (Or.inl hk))).2.2
    rw [hv, htok, e, token_append_zero k [] hz, if_pos rfl]
  · rw [packing_value _ _ hs, hhead, htok, hslot, if_pos rfl]
  · rw [reinterpret_value _ _ _ hbs hlen, hhead, htok, hslot, if_pos rfl]
  · rw [intrinsic_value _ _ hbs hlen, hhead, htok, hslot, if_pos rfl]

theorem C1_true_keywords_witness :
    lit "on" ∈ trueKeywords ∧ IsBytes [255, 1, 204, 0, 7] ∧
      8 ≤ (lit "on" ++ 0 :: [255, 1, 204, 0, 7]).length ∧
      (String_parseBoolLoop (some (lit "on" ++ 0 :: [255, 1, 204, 0, 7])) = some 1 ∧
      String_parseBoolGoto (some (lit "on" ++ 0 :: [255, 1, 204, 0, 7])) = some 1 ∧
      String_parseBoolStrcmp (some (lit "on" ++ 0 :: [255, 1, 204, 0, 7])) = some 1 ∧
      String_parseBoolHashing true (some (lit "on" ++ 0 :: [255, 1, 204, 0, 7])) = some 1 ∧
      String_parseBoolPacking true (some (lit "on" ++ 0 :: [255, 1, 204, 0, 7])) = some 1 ∧
      String_parseBoolReinterpret true 18446744073709551615
        (some (lit "on" ++ 0 :: [255, 1, 204, 0, 7])) = some 1 ∧
      String_parseBoolReinterpretIntrinsic true (some (lit "on" ++ 0 :: [255, 1, 204, 0, 7]))
        = some 1) :=
  ⟨by decide, by decide, by decide,
    C1_true_keywords (lit "on") (by decide) [255, 1, 204, 0, 7] (by decide) (by decide) true
      18446744073709551615⟩

/-- C2: for every false-ish keyword stored with its terminator in at least 8
bytes, whatever bytes follow the terminator, each of the seven strategies
returns 0. -/
theorem C2_false_keywords (k : List Nat) (hk : k ∈ falseKeywords) (rest : List Nat)
    (hb : IsBytes rest) (hlen : 8 ≤ (k ++ 0 :: rest).length) (charSigned : Bool)
    (wideShift : Nat) :
    String_parseBoolLoop (some (k ++ 0 :: rest)) = some 0 ∧
    String_parseBoolGoto (some (k ++ 0 :: rest)) = some 0 ∧
    String_parseBoolStrcmp (some (k ++ 0 :: rest)) = some 0 ∧
    String_parseBoolHashing charSigned (some (k ++ 0 :: rest)) = some 0 ∧
    String_parseBoolPacking charSigned (some (k ++ 0 :: rest)) = some 0 ∧
    String_parseBoolReinterpret charSigned wideShift (some (k ++ 0 :: rest)) = some 0 ∧
    String_parseBoolReinterpretIntrinsic charSigned (some (k ++ 0 :: rest)) = some 0 := by
  obtain ⟨hs, hbs, htok, hhead⟩ :=
    keyword_storage k (List.mem_append.2 (Or.inr hk)) rest hb
  have hnt : k ∉ trueKeywords := fun h => keywords_disjoint k h hk
  have hloop : String_parseBoolLoop (some (k ++ 0 :: rest)) = some 0 := by
    rw [loop_value _ hs, htok, scan_false k hk]
  obtain ⟨hoff, hslot⟩ := packed_false_slot k hk charSigned
  have hne : ¬ k = token (Packed.match_.drop
      (Packed.matchOffset (charToInt charSigned (k.headD 0)))) := by
    intro h
    exact hnt (h ▸ packed_match_tokens _ (and_fiftysix_mem _))
  refine ⟨hloop, ?_, ?_, ?_, ?_, ?_, ?_⟩
  · rw [goto_eq_loop, hloop]
  · rw [strcmp_chain_value _ hs, htok, if_neg hnt, if_pos hk]
  · obtain ⟨k1, hk1, k2, -, -, h2, hv⟩ := hashing_value charSigned _ hs
    rw [hhead, hashing_false_row k hk charSigned] at h2
    have e : k2 = k ++ [0] := (Option.some.inj h2).symm
    have hz : 0 ∉ k := (keywords_bytes k (List.mem_append.2 (Or.inr hk))).2.2
    have hne1 : ¬ k = token k1 := fun h => hnt (h ▸ hashing_match_tokens k1 hk1)
    rw [hv, htok, e, token_append_zero k [] hz, if_neg hne1, if_pos rfl]
  · rw [packing_value _ _ hs, hhead, htok, hslot, if_neg hne, if_pos rfl]
  · rw [reinterpret_value _ _ _ hbs hlen, hhead, htok, hslot, if_neg hne, if_pos ⟨hoff, rfl⟩]
  · rw [intrinsic_value _ _ hbs hlen, hhead, htok, hslot, if_neg hne, if_pos ⟨hoff, rfl⟩]

theorem C2_false_keywords_witness :
    lit "Disable" ∈ falseKeywords ∧ IsBytes [204, 204] ∧
      8 ≤ (lit "Disable" ++ 0 :: [204, 204]).length ∧
      (String_parseBoolLoop (some (lit "Disable" ++ 0 :: [204, 204])) = some 0 ∧
      String_parseBoolGoto (some (lit "Disable" ++ 0 :: [204, 204])) = some 0 ∧
      String_parseBoolStrcmp (some (lit "Disable" ++ 0 :: [204, 204])) = some 0 ∧
      String_parseBoolHashing true (some (lit "Disable" ++ 0 :: [204, 204])) = some 0 ∧
      String_parseBoolPacking true (some (lit "Disable" ++ 0 :: [204, 204])) = some 0 ∧
      String_parseBoolReinterpret true 18446744073709551615
        (some (lit "Disable" ++ 0 :: [204, 204])) = some 0 ∧
      String_parseBoolReinterpretIntrinsic true (some (lit "Disable" ++ 0 :: [204, 204]))
        = some 0) :=
  ⟨by decide, by decide, by decide,
    C2_false_keywords (lit "Disable") (by decide) [204, 204] (by decide) (by decide) true
      18446744073709551615⟩

/-- C9: for every input stored in at least 8 bytes whose token is none of the
16 keywords, `String_parseBoolReinterpretIntrinsic` returns -1, whatever the
bytes after the terminator and the signedness of `char`. -/
theorem C9_intrinsic_rejects (charSigned : Bool) (s : List Nat) (hb : IsBytes s)
    (hlen : 8 ≤ s.length) (hk : token s ∉ trueKeywords ++ falseKeywords) :
    String_parseBoolReinterpretIntrinsic charSigned (some s) = some (-1) := by
  have ht : token s ∉ trueKeywords := fun h => hk (List.mem_append.2 (Or.inl h))
  have hf : token s ∉ falseKeywords := fun h => hk (List.mem_append.2 (Or.inr h))
  rw [intrinsic_value charSigned s hb hlen]
  have h1 : ¬ token s = token (Packed.match_.drop
      (Packed.matchOffset (charToInt charSigned (s.headD 0)))) := by
    intro h
    exact ht (h ▸ packed_match_tokens _ (and_fiftysix_mem _))
  have h2 : ¬ (Packed.notMatchOffset (charToInt charSigned (s.headD 0)) ∈ Packed.keywordOffsets
      ∧ token s = token (Packed.notMatch.drop
          (Packed.notMatchOffset (charToInt charSigned (s.headD 0))))) := by
    rintro ⟨ho, h⟩
    exact hf (h ▸ packed_notMatch_tokens _ ho)
  rw [if_neg h1, if_neg h2]

theorem C9_intrinsic_rejects_witness :
    IsBytes (lit "truee" ++ [0, 204, 204]) ∧ 8 ≤ (lit "truee" ++ [0, 204, 204]).length ∧
      token (lit "truee" ++ [0, 204, 204]) ∉ trueKeywords ++ falseKeywords ∧
      String_parseBoolReinterpretIntrinsic true (some (lit "truee" ++ [0, 204, 204]))
        = some (-1) :=
  ⟨by decide, by decide, by decide,
    C9_intrinsic_rejects true (lit "truee" ++ [0, 204, 204]) (by decide) (by decide) (by decide)⟩

/-! ## Inputs on which the strategies disagree with the contract -/

set_option maxRecDepth 8000 in
/-- C3: on the token "truee" stored in 8 bytes the seven strategies do not
agree: the two character loops return 1, the other five return -1. -/
theorem C3_strategies_disagree :
    String_parseBoolLoop (some (lit "truee" ++ [0, 0, 0])) = some 1 ∧
    String_parseBoolGoto (some (lit "truee" ++ [0, 0, 0])) = some 1 ∧
    String_parseBoolStrcmp (some (lit "truee" ++ [0, 0, 0])) = some (-1) ∧
    String_parseBoolHashing true (some (lit "truee" ++ [0, 0, 0])) = some (-1) ∧
    String_parseBoolPacking true (some (lit "truee" ++ [0, 0, 0])) = some (-1) ∧
    String_parseBoolReinterpret true x86WideShift (some (lit "truee" ++ [0, 0, 0]))
      = some (-1) ∧
    String_parseBoolReinterpretIntrinsic true (some (lit "truee" ++ [0, 0, 0])) = some (-1) := by
  decide

/-- C4: `String_parseBoolLoop` returns 1 on the tokens "truee" and "true ",
neither of which is one of the 16 keywords. -/
theorem C4_loop_accepts_extension :
    token (cstr "truee") ∉ trueKeywords ++ falseKeywords ∧
    String_parseBoolLoop (some (cstr "truee")) = some 1 ∧
    token (cstr "true ") ∉ trueKeywords ++ falseKeywords ∧
    String_parseBoolLoop (some (cstr "true ")) = some 1 := by
  decide

set_option maxRecDepth 8000 in
/-- C7: with a signed `char`, `String_parseBoolPacking` returns 0 on the token
made of eight bytes 0xCC followed by "disable", which is not a keyword: the
first byte selects the filler slot at offset 48 and `strcmp` runs on into the
next slot.  With an unsigned `char` the same happens on fifteen bytes 0xCC. -/
theorem C7_packing_matches_filler :
    token (Packed.filler ++ cstr "disable") ∉ trueKeywords ++ falseKeywords ∧
    Packed.notMatchOffset (charToInt true 204) = 48 ∧
    String_parseBoolPacking true (some (Packed.filler ++ cstr "disable")) = some 0 ∧
    token (Packed.filler ++ [204, 204, 204, 204, 204, 204, 204, 0])
      ∉ trueKeywords ++ falseKeywords ∧
    Packed.notMatchOffset (charToInt false 204) = 112 ∧
    String_parseBoolPacking false (some (Packed.filler ++ [204, 204, 204, 204, 204, 204, 204, 0]))
      = some 0 := by
  decide

set_option maxRecDepth 8000 in
/-- C8: where `0xFFFFFFFFFFFFFFFF >> 64` keeps all bits, as on x86,
`String_parseBoolReinterpret` returns 0 on the token made of eight bytes 0xCC,
which is not a keyword: the first byte selects a filler slot whose entry in
`lengths2` is 64. -/
theorem C8_reinterpret_matches_filler :
    token (Packed.filler ++ [0]) ∉ trueKeywords ++ falseKeywords ∧
    Reinterpret.lengths2[Packed.notMatchOffset (charToInt true 204)]? = some 64 ∧
    String_parseBoolReinterpret true x86WideShift (some (Packed.filler ++ [0])) = some 0 ∧
    String_parseBoolReinterpret false x86WideShift (some (Packed.filler ++ [0])) = some 0 := by
  decide

/-! ## Where the two defects lie -/

/-- Outside the filler slots `String_parseBoolPacking` rejects every token
that is not a keyword. -/
theorem packing_rejects_at_keyword_slot (charSigned : Bool) (s : List Nat)
    (hs : NulTerminated s) (hk : token s ∉ trueKeywords ++ falseKeywords)
    (ho : Packed.notMatchOffset (charToInt charSigned (s.headD 0)) ∈ Packed.keywordOffsets) :
    String_parseBoolPacking charSigned (some s) = some (-1) := by
  have ht : token s ∉ trueKeywords := fun h => hk (List.mem_append.2 (Or.inl h))
  have hf : token s ∉ falseKeywords := fun h => hk (List.mem_append.2 (Or.inr h))
  rw [packing_value charSigned s hs]
  have h1 : ¬ token s = token (Packed.match_.drop
      (Packed.matchOffset (charToInt charSigned (s.headD 0)))) := by
    intro h
    exact ht (h ▸ packed_match_tokens _ (and_fiftysix_mem _))
  have h2 : ¬ token s = token (Packed.notMatch.drop
      (Packed.notMatchOffset (charToInt charSigned (s.headD 0)))) := by
    intro h
    exact hf (h ▸ packed_notMatch_tokens _ ho)
  rw [if_neg h1, if_neg h2]

/-- If `0xFFFFFFFFFFFFFFFF >> 64` were 0, `String_parseBoolReinterpret` would
reject every token that is not a keyword. -/
theorem reinterpret_rejects_of_zero_shift (charSigned : Bool) (s : List Nat) (hb : IsBytes s)
    (hlen : 8 ≤ s.length) (hk : token s ∉ trueKeywords ++ falseKeywords) :
    String_parseBoolReinterpret charSigned 0 (some s) = some (-1) := by
  have ht : token s ∉ trueKeywords := fun h => hk (List.mem_append.2 (Or.inl h))
  have hf : token s ∉ falseKeywords := fun h => hk (List.mem_append.2 (Or.inr h))
  rw [reinterpret_value charSigned 0 s hb hlen]
  have h1 : ¬ token s = token (Packed.match_.drop
      (Packed.matchOffset (charToInt charSigned (s.headD 0)))) := by
    intro h
    exact ht (h ▸ packed_match_tokens _ (and_fiftysix_mem _))
  have h2 : ¬ (Packed.notMatchOffset (charToInt charSigned (s.headD 0)) ∈ Packed.keywordOffsets
      ∧ token s = token (Packed.notMatch.drop
          (Packed.notMatchOffset (charToInt charSigned (s.headD 0))))) := by
    rintro ⟨ho, h⟩
    exact hf (h ▸ packed_notMatch_tokens _ ho)
  have h3 : ¬ (Packed.notMatchOffset (charToInt charSigned (s.headD 0)) ∈ Packed.fillerOffsets
      ∧ (load64 s 0).map (fun word => word &&& 0)
        = load64 Packed.notMatch (Packed.notMatchOffset (charToInt charSigned (s.headD 0)))) := by
    rintro ⟨ho, h⟩
    obtain ⟨word, hw⟩ := load64_zero_of_length s hlen
    obtain ⟨slot, -, -, hsl, hne⟩ := filler_slot _ ho
    rw [hw, hsl] at h
    simp only [Option.map_some', Nat.and_zero, Option.some.injEq] at h
    exact hne h.symm
  rw [if_neg h1, if_neg h2, if_neg h3]

/-! ## The two word-compare variants side by side -/

/-- If `0xFFFFFFFFFFFFFFFF >> 64` were 0, the shift variant and the intrinsic
variant would return the same value on every input of 8 or more bytes. -/
theorem reinterpret_eq_intrinsic_of_zero_shift (charSigned : Bool) (s : List Nat)
    (hb : IsBytes s) (hlen : 8 ≤ s.length) :
    String_parseBoolReinterpret charSigned 0 (some s)
      = String_parseBoolReinterpretIntrinsic charSigned (some s) := by
  rw [reinterpret_value charSigned 0 s hb hlen, intrinsic_value charSigned s hb hlen]
  have h3 : ¬ (Packed.notMatchOffset (charToInt charSigned (s.headD 0)) ∈ Packed.fillerOffsets
      ∧ (load64 s 0).map (fun word => word &&& 0)
        = load64 Packed.notMatch (Packed.notMatchOffset (charToInt charSigned (s.headD 0)))) := by
    rintro ⟨ho, h⟩
    obtain ⟨word, hw⟩ := load64_zero_of_length s hlen
    obtain ⟨slot, -, -, hsl, hne⟩ := filler_slot _ ho
    rw [hw, hsl] at h
    simp only [Option.map_some', Nat.and_zero, Option.some.injEq] at h
    exact hne h.symm
  rw [if_neg h3]

set_option maxRecDepth 8000 in
/-- C11: on the storage of eight bytes 0xCC and a terminator, whose first byte
selects a filler slot, the shift variant returns 0 where the shift by 64 keeps
all bits (x86), while the intrinsic variant returns -1. -/
theorem C11_variants_differ_at_filler :
    IsBytes (Packed.filler ++ [0]) ∧ 8 ≤ (Packed.filler ++ [0]).length ∧
    Packed.notMatchOffset (charToInt true 204) ∈ Packed.fillerOffsets ∧
    Reinterpret.lengths2[Packed.notMatchOffset (charToInt true 204)]? = some 64 ∧
    Intrinsic.lengths2[Packed.notMatchOffset (charToInt true 204)]? = some 0 ∧
    String_parseBoolReinterpret true x86WideShift (some (Packed.filler ++ [0])) = some 0 ∧
    String_parseBoolReinterpretIntrinsic true (some (Packed.filler ++ [0])) = some (-1) := by
  decide

/-! ## The hash expressions -/

set_option maxRecDepth 8000 in
/-- C12: each of the four hash expressions sends the 8 first letters of its
keyword set to 8 distinct slots, and each letter to the slot that holds the
keyword starting with that letter. -/
theorem C12_hash_collision_free :
    ([69, 79, 84, 89, 101, 111, 116, 121].map Hashing.matchIndex = [0, 1, 2, 3, 4, 5, 6, 7] ∧
      (∀ k ∈ trueKeywords, Hashing.match_[Hashing.matchIndex (k.headD 0)]? = some (k ++ [0]))) ∧
    ([68, 70, 78, 79, 100, 102, 110, 111].map Hashing.notMatchIndex = [0, 1, 2, 3, 4, 5, 6, 7] ∧
      (∀ k ∈ falseKeywords,
        Hashing.notMatch[Hashing.notMatchIndex (k.headD 0)]? = some (k ++ [0]))) ∧
    ([69, 79, 84, 89, 101, 111, 116, 121].map Packed.matchOffset
        = [0, 8, 16, 24, 32, 40, 48, 56] ∧
      (∀ k ∈ trueKeywords, token (Packed.match_.drop (Packed.matchOffset (k.headD 0))) = k)) ∧
    ([68, 70, 78, 79, 100, 102, 110, 111].map Packed.notMatchOffset
        = [0, 8, 16, 24, 56, 64, 72, 80] ∧
      [0, 8, 16, 24, 56, 64, 72, 80].map (fun o => token (Packed.notMatch.drop o))
        = [lit "Disable", lit "False", lit "No", lit "Off", lit "disable", lit "false",
           lit "no", lit "off"] ∧
      (∀ k ∈ falseKeywords,
        token (Packed.notMatch.drop (Packed.notMatchOffset (k.headD 0))) = k)) := by
  decide

/-! ## The absent token -/

/-- C13: each of the seven strategies returns -1 on the NULL pointer, and
reads nothing. -/
theorem C13_null_input (charSigned : Bool) (wideShift : Nat) :
    String_parseBoolLoop none = some (-1) ∧
    String_parseBoolGoto none = some (-1) ∧
    String_parseBoolStrcmp none = some (-1) ∧
    String_parseBoolHashing charSigned none = some (-1) ∧
    String_parseBoolPacking charSigned none = some (-1) ∧
    String_parseBoolReinterpret charSigned wideShift none = some (-1) ∧
    String_parseBoolReinterpretIntrinsic charSigned none = some (-1) :=
  ⟨rfl, rfl, rfl, rfl, rfl, rfl, rfl⟩

/-! ## Table reads stay in bounds -/

set_option maxRecDepth 8000 in
theorem match_slot_reads :
    ∀ o ∈ [0, 8, 16, 24, 32, 40, 48, 56],
      o % 8 = 0 ∧ o + 8 ≤ Packed.match_.length ∧ (load64 Packed.match_ o).isSome = true ∧
        o < Reinterpret.lengths.length ∧ o < Intrinsic.lengths.length := by
  decide

set_option maxRecDepth 8000 in
theorem notMatch_slot_reads :
    ∀ o ∈ [0, 8, 16, 24, 32, 40, 48, 56, 64, 72, 80, 88, 96, 104, 112, 120],
      o % 8 = 0 ∧ o + 8 ≤ Packed.notMatch.length ∧ (load64 Packed.notMatch o).isSome = true ∧
        o < Reinterpret.lengths2.length ∧ o < Intrinsic.lengths2.length := by
  decide

set_option maxRecDepth 8000 in
/-- C19: for every value of the first character the two indices of
`String_parseBoolHashing` lie below 8, and the two offsets of the packed
variants are multiples of 8 whose 8-byte slot lies inside the 64 bytes of
`match` and the 128 bytes of `notMatch`, and inside the length tables. -/
theorem C19_table_reads_in_bounds (c : Int) :
    (Hashing.matchIndex c < Hashing.match_.length ∧
      Hashing.notMatchIndex c < Hashing.notMatch.length) ∧
    (Packed.matchOffset c % 8 = 0 ∧ Packed.matchOffset c ≤ 56 ∧
      Packed.match_.length = 64 ∧ Packed.matchOffset c + 8 ≤ Packed.match_.length ∧
      (load64 Packed.match_ (Packed.matchOffset c)).isSome = true ∧
      Packed.matchOffset c < Reinterpret.lengths.length ∧
      Packed.matchOffset c < Intrinsic.lengths.length) ∧
    (Packed.notMatchOffset c % 8 = 0 ∧ Packed.notMatchOffset c ≤ 120 ∧
      Packed.notMatch.length = 128 ∧ Packed.notMatchOffset c + 8 ≤ Packed.notMatch.length ∧
      (load64 Packed.notMatch (Packed.notMatchOffset c)).isSome = true ∧
      Packed.notMatchOffset c < Reinterpret.lengths2.length ∧
      Packed.notMatchOffset c < Intrinsic.lengths2.length) := by
  obtain ⟨a1, a2, a3, a4, a5⟩ := match_slot_reads (Packed.matchOffset c) (and_fiftysix_mem _)
  obtain ⟨b1, b2, b3, b4, b5⟩ :=
    notMatch_slot_reads (Packed.notMatchOffset c) (and_onetwenty_mem _)
  have hm : Packed.matchOffset c ≤ 56 := Nat.and_le_right
  have hn : Packed.notMatchOffset c ≤ 120 := Nat.and_le_right
  exact ⟨⟨and_seven_lt _, and_seven_lt _⟩, ⟨a1, hm, by decide, a2, a3, a4, a5⟩,
    ⟨b1, hn, by decide, b2, b3, b4, b5⟩⟩

/-! ## The bench runner -/

theorem addAssignU_zero (c : Int) (h0 : 0 ≤ c) (h1 : c < 2147483648) : addAssignU c 0 = c := by
  unfold addAssignU toI32 toU32
  have e : (c % 4294967296).toNat = c.toNat := by omega
  rw [e]
  have e2 : (c.toNat + 0) % 4294967296 % 4294967296 = c.toNat := by omega
  rw [e2]
  have e3 : c.toNat < 2147483648 := by omega
  rw [if_pos e3]
  omega

theorem addAssignU_one (c : Int) (h0 : 0 ≤ c) (h1 : c + 1 < 2147483648) :
    addAssignU c 1 = c + 1 := by
  unfold addAssignU toI32 toU32
  have e : (c % 4294967296).toNat = c.toNat := by omega
  rw [e]
  have e2 : (c.toNat + 1) % 4294967296 % 4294967296 = c.toNat + 1 := by omega
  rw [e2]
  have e3 : c.toNat + 1 < 2147483648 := by omega
  rw [if_pos e3]
  omega

theorem addAssignU_ite (c : Int) (p : Prop) [Decidable p] (h0 : 0 ≤ c)
    (h1 : c + 1 < 2147483648) :
    addAssignU c (if p then 1 else 0) = c + (if p then 1 else 0) := by
  by_cases hp : p
  · simp only [if_pos hp]; exact addAssignU_one c h0 h1
  · simp only [if_neg hp]; rw [addAssignU_zero c h0 (by omega)]; omega

/-- The loop of `run_test` from run `i` on: while the counters cannot leave
the range of `int`, it ends and has added to each counter the number of the
remaining runs with the counted result. -/
theorem run_test_loop_spec (parser : Option (List Nat) → Option Int)
    (boolStrings : List (List Nat)) (stringCount : Nat) (hn : 1 ≤ stringCount)
    (hrows : stringCount ≤ boolStrings.length)
    (hp : ∀ j, j < stringCount → (parser boolStrings[j]?).isSome = true) :
    ∀ (n i : Nat) (t e : Int), 0 ≤ t → 0 ≤ e → t + n < 2147483648 → e + n < 2147483648 →
      run_test_loop parser boolStrings stringCount n i (t, e)
        = some (t + tally parser boolStrings stringCount (List.range' i n) 1,
                e + tally parser boolStrings stringCount (List.range' i n) (-1)) := by
  intro n
  induction n with
  | zero => intro i t e _ _ _ _; simp [run_test_loop, tally]
  | succ n ih =>
    intro i t e ht he htn hen
    have hne : stringCount ≠ 0 := by omega
    have hlt : i % stringCount < stringCount := Nat.mod_lt _ (by omega)
    have hlt2 : i % stringCount < boolStrings.length := by omega
    have hget : boolStrings[i % stringCount]? = some boolStrings[i % stringCount] :=
      List.getElem?_eq_getElem hlt2
    have hsome := hp (i % stringCount) hlt
    rw [hget] at hsome
    obtain ⟨r, hr⟩ := Option.isSome_iff_exists.1 hsome
    have h1 : addAssignU t (if r = 1 then 1 else 0) = t + (if r = 1 then 1 else 0) :=
      addAssignU_ite t (r = 1) ht (by omega)
    have h2 : addAssignU e (if r = -1 then 1 else 0) = e + (if r = -1 then 1 else 0) :=
      addAssignU_ite e (r = -1) he (by omega)
    have ht2 : (0 : Int) ≤ t + (if r = 1 then 1 else 0) := by split_ifs <;> omega
    have he2 : (0 : Int) ≤ e + (if r = -1 then 1 else 0) := by split_ifs <;> omega
    have htn2 : t + (if r = 1 then 1 else 0) + (n : Int) < 2147483648 := by
      split_ifs <;> omega
    have hen2 : e + (if r = -1 then 1 else 0) + (n : Int) < 2147483648 := by
      split_ifs <;> omega
    have hc1 : tally parser boolStrings stringCount (List.range' i (n + 1)) 1
        = (if r = 1 then 1 else 0) + tally parser boolStrings stringCount
            (List.range' (i + 1) n) 1 := by
      simp only [tally, List.range'_succ, List.countP_cons, hget, hr, Option.some.injEq]
      by_cases h : r = 1
      · simp [h]; omega
      · simp [h]
    have hc2 : tally parser boolStrings stringCount (List.range' i (n + 1)) (-1)
        = (if r = -1 then 1 else 0) + tally parser boolStrings stringCount
            (List.range' (i + 1) n) (-1) := by
      simp only [tally, List.range'_succ, List.countP_cons, hget, hr, Option.some.injEq]
      by_cases h : r = -1
      · simp [h]; omega
      · simp [h]
    simp only [run_test_loop, if_neg hne, hget, hr]
    rw [h1, h2, ih (i + 1) _ _ ht2 he2 htn2 hen2, hc1, hc2]
    have e1 : t + (if r = 1 then 1 else 0)
          + ((tally parser boolStrings stringCount (List.range' (i + 1) n) 1 : Nat) : Int)
        = t + (((if r = 1 then 1 else 0) + tally parser boolStrings stringCount
            (List.range' (i + 1) n) 1 : Nat) : Int) := by
      split_ifs <;> push_cast <;> omega
    have e2 : e + (if r = -1 then 1 else 0)
          + ((tally parser boolStrings stringCount (List.range' (i + 1) n) (-1) : Nat) : Int)
        = e + (((if r = -1 then 1 else 0) + tally parser boolStrings stringCount
            (List.range' (i + 1) n) (-1) : Nat) : Int) := by
      split_ifs <;> push_cast <;> omega
    rw [e1, e2]

theorem tally_total (parser : Option (List Nat) → Option Int) (boolStrings : List (List Nat))
    (stringCount : Nat) (runs : List Nat) :
    tally parser boolStrings stringCount runs 1 + tally parser boolStrings stringCount runs (-1)
      + tallyOther parser boolStrings stringCount runs = runs.length := by
  induction runs with
  | nil => simp [tally, tallyOther]
  | cons i runs ih =>
    simp only [tally, tallyOther, List.countP_cons, List.length_cons] at ih ⊢
    split_ifs with a b c <;> first | omega | simp_all

/-- C14: for a non-empty token set, a parser that returns on each of its
tokens and an iteration count in the range of `int`, the loop of `run_test`
ends with `trueCounter` the number of runs classified 1 and `errorCounter` the
number of runs classified -1; the remaining runs are those classified
otherwise. -/
theorem C14_run_test_tallies (parser : Option (List Nat) → Option Int)
    (boolStrings : List (List Nat)) (stringCount : Nat) (BOOL_RUNS : Int)
    (hn : 1 ≤ stringCount) (hrows : stringCount ≤ boolStrings.length)
    (hk : BOOL_RUNS < 2147483648)
    (hp : ∀ j, j < stringCount → (parser boolStrings[j]?).isSome = true) :
    run_test parser boolStrings stringCount BOOL_RUNS
        = some ((↑(tally parser boolStrings stringCount (List.range BOOL_RUNS.toNat) 1) : Int),
                (↑(tally parser boolStrings stringCount (List.range BOOL_RUNS.toNat) (-1)) : Int)) ∧
      BOOL_RUNS.toNat - tally parser boolStrings stringCount (List.range BOOL_RUNS.toNat) 1
          - tally parser boolStrings stringCount (List.range BOOL_RUNS.toNat) (-1)
        = tallyOther parser boolStrings stringCount (List.range BOOL_RUNS.toNat) := by
  constructor
  · have h := run_test_loop_spec parser boolStrings stringCount hn hrows hp BOOL_RUNS.toNat 0
      0 0 (le_refl 0) (le_refl 0) (by omega) (by omega)
    simp only [run_test, h, List.range_eq_range', zero_add]
  · have h := tally_total parser boolStrings stringCount (List.range BOOL_RUNS.toNat)
    rw [List.length_range] at h
    omega

set_option maxRecDepth 8000 in
theorem C14_run_test_tallies_witness :
    1 ≤ 3 ∧ 3 ≤ [cstr "yes", cstr "no", cstr "banana"].length ∧ (9 : Int) < 2147483648 ∧
      (∀ j, j < 3 →
        (String_parseBoolStrcmp [cstr "yes", cstr "no", cstr "banana"][j]?).isSome = true) ∧
      (run_test String_parseBoolStrcmp [cstr "yes", cstr "no", cstr "banana"] 3 9
          = some ((↑(tally String_parseBoolStrcmp [cstr "yes", cstr "no", cstr "banana"] 3
                    (List.range (9 : Int).toNat) 1) : Int),
                  (↑(tally String_parseBoolStrcmp [cstr "yes", cstr "no", cstr "banana"] 3
                    (List.range (9 : Int).toNat) (-1)) : Int)) ∧
        (9 : Int).toNat
            - tally String_parseBoolStrcmp [cstr "yes", cstr "no", cstr "banana"] 3
                (List.range (9 : Int).toNat) 1
            - tally String_parseBoolStrcmp [cstr "yes", cstr "no", cstr "banana"] 3
                (List.range (9 : Int).toNat) (-1)
          = tallyOther String_parseBoolStrcmp [cstr "yes", cstr "no", cstr "banana"] 3
              (List.range (9 : Int).toNat)) ∧
      tally String_parseBoolStrcmp [cstr "yes", cstr "no", cstr "banana"] 3
        (List.range (9 : Int).toNat) 1 = 3 ∧
      tally String_parseBoolStrcmp [cstr "yes", cstr "no", cstr "banana"] 3
        (List.range (9 : Int).toNat) (-1) = 3 ∧
      tallyOther String_parseBoolStrcmp [cstr "yes", cstr "no", cstr "banana"] 3
        (List.range (9 : Int).toNat) = 3 :=
  ⟨by decide, by decide, by decide, by decide,
    C14_run_test_tallies String_parseBoolStrcmp [cstr "yes", cstr "no", cstr "banana"] 3 9
      (by decide) (by decide) (by decide) (by decide),
    by decide, by decide, by decide⟩

/-- C15: with an empty token set (`stringCount = 0`) and at least one
iteration, `run_test` has no guard: its first iteration evaluates
`i % stringCount`, a modulo by zero, whatever the parser and the rows. -/
theorem C15_empty_token_set_unguarded (parser : Option (List Nat) → Option Int)
    (boolStrings : List (List Nat)) (n : Nat) :
    run_test parser boolStrings 0 ((n : Int) + 1) = none := by
  have e : ((n : Int) + 1).toNat = n + 1 := by omega
  simp [run_test, e, run_test_loop]

/-- With no iteration to run, `run_test` evaluates no index and prints two
zero counters, also for an empty token set. -/
theorem run_test_no_runs (parser : Option (List Nat) → Option Int)
    (boolStrings : List (List Nat)) (stringCount : Nat) (BOOL_RUNS : Int) (h : BOOL_RUNS ≤ 0) :
    run_test parser boolStrings stringCount BOOL_RUNS = some (0, 0) := by
  have e : BOOL_RUNS.toNat = 0 := by omega
  simp [run_test, e, run_test_loop]

/-! ## The result is a function of the token -/

theorem headD_eq_token_headD (s : List Nat) : s.headD 0 = (token s).headD 0 := by
  cases s with
  | nil => rfl
  | cons b tl =>
    by_cases hb : b = 0
    · subst hb; simp [token_cons_zero]
    · simp [token_cons_ne b tl hb]

set_option maxRecDepth 8000 in
/-- Each of the first seven bytes of a filler slot has bit 2 set. -/
theorem filler_slot_bits (offset : Nat) (ho : offset ∈ Packed.fillerOffsets) :
    ∃ slot, load64 Packed.notMatch offset = some slot ∧
      slot.testBit 2 = true ∧ slot.testBit 10 = true ∧ slot.testBit 18 = true ∧
      slot.testBit 26 = true ∧ slot.testBit 34 = true ∧ slot.testBit 42 = true ∧
      slot.testBit 50 = true := by
  simp only [Packed.fillerOffsets, List.mem_cons, List.mem_singleton, List.not_mem_nil,
    or_false] at ho
  rcases ho with rfl | rfl | rfl | rfl | rfl | rfl | rfl | rfl <;>
    exact ⟨_, rfl, by decide, by decide, by decide, by decide, by decide, by decide, by decide⟩

theorem testBit_of_and_eq (word w slot i : Nat) (h : word &&& w = slot)
    (hs : slot.testBit i = true) : word.testBit i = true := by
  rw [← h, Nat.testBit_and] at hs
  simp only [Bool.and_eq_true] at hs
  exact hs.1

/-- Two storages with the same token whose first seven bytes are not 0 agree
on their first eight bytes. -/
theorem first_eight_of_token (b0 b1 b2 b3 b4 b5 b6 b7 c0 c1 c2 c3 c4 c5 c6 c7 : Nat)
    (tl1 tl2 : List Nat) (h0 : b0 ≠ 0) (h1 : b1 ≠ 0) (h2 : b2 ≠ 0) (h3 : b3 ≠ 0)
    (h4 : b4 ≠ 0) (h5 : b5 ≠ 0) (h6 : b6 ≠ 0)
    (ht : token (b0 :: b1 :: b2 :: b3 :: b4 :: b5 :: b6 :: b7 :: tl1)
      = token (c0 :: c1 :: c2 :: c3 :: c4 :: c5 :: c6 :: c7 :: tl2)) :
    c0 = b0 ∧ c1 = b1 ∧ c2 = b2 ∧ c3 = b3 ∧ c4 = b4 ∧ c5 = b5 ∧ c6 = b6 ∧ c7 = b7 := by
  rw [token_cons_ne _ _ h0, token_cons_ne _ _ h1, token_cons_ne _ _ h2, token_cons_ne _ _ h3,
    token_cons_ne _ _ h4, token_cons_ne _ _ h5, token_cons_ne _ _ h6] at ht
  have ht2 := ht.symm
  simp only [token_cons_eq_cons] at ht2
  obtain ⟨⟨e0, -⟩, ⟨e1, -⟩, ⟨e2, -⟩, ⟨e3, -⟩, ⟨e4, -⟩, ⟨e5, -⟩, ⟨e6, -⟩, e7⟩ := ht2
  refine ⟨e0, e1, e2, e3, e4, e5, e6, ?_⟩
  by_cases hb7 : b7 = 0
  · subst hb7
    rw [token_cons_zero] at e7
    exact (token_cons_eq_nil c7 tl2).1 e7
  · rw [token_cons_ne _ _ hb7] at e7
    exact ((token_cons_eq_cons c7 tl2 b7 _).1 e7).1.1

/-- The comparison at a filler slot gives the same answer on two storages
with the same token, whatever the value of the shift by 64. -/
theorem filler_compare_token (wideShift : Nat) (s1 s2 : List Nat) (hb1 : IsBytes s1)
    (hl1 : 8 ≤ s1.length) (hl2 : 8 ≤ s2.length) (ht : token s1 = token s2) (offset : Nat)
    (ho : offset ∈ Packed.fillerOffsets)
    (h : (load64 s1 0).map (fun word => word &&& wideShift) = load64 Packed.notMatch offset) :
    (load64 s2 0).map (fun word => word &&& wideShift) = load64 Packed.notMatch offset := by
  obtain ⟨word1, hw1⟩ := load64_zero_of_length s1 hl1
  obtain ⟨word2, hw2⟩ := load64_zero_of_length s2 hl2
  obtain ⟨slot, hsl, t0, t1, t2, t3, t4, t5, t6⟩ := filler_slot_bits offset ho
  rw [hw1, hsl] at h
  simp only [Option.map_some', Option.some.injEq] at h
  have a0 := testBit_of_and_eq _ _ _ _ h t0
  have a1 := testBit_of_and_eq _ _ _ _ h t1
  have a2 := testBit_of_and_eq _ _ _ _ h t2
  have a3 := testBit_of_and_eq _ _ _ _ h t3
  have a4 := testBit_of_and_eq _ _ _ _ h t4
  have a5 := testBit_of_and_eq _ _ _ _ h t5
  have a6 := testBit_of_and_eq _ _ _ _ h t6
  obtain ⟨b0, b1, b2, b3, b4, b5, b6, b7, tl1, rfl, rfl⟩ := load64_zero_some s1 word1 hw1
  obtain ⟨c0, c1, c2, c3, c4, c5, c6, c7, tl2, rfl, rfl⟩ := load64_zero_some s2 word2 hw2
  simp only [IsBytes, List.forall_mem_cons] at hb1
  obtain ⟨g0, g1, g2, g3, g4, g5, g6, g7, -⟩ := hb1
  simp only [Nat.testBit_to_div_mod, decide_eq_true_eq] at a0 a1 a2 a3 a4 a5 a6
  norm_num at a0 a1 a2 a3 a4 a5 a6
  obtain ⟨rfl, rfl, rfl, rfl, rfl, rfl, rfl, rfl⟩ :=
    first_eight_of_token b0 b1 b2 b3 b4 b5 b6 b7 c0 c1 c2 c3 c4 c5 c6 c7 tl1 tl2
      (by omega) (by omega) (by omega) (by omega) (by omega) (by omega) (by omega) ht
  rw [hw2, hsl]
  simp only [Option.map_some', Option.some.injEq]
  exact h

/-- C16: two storages of 8 or more bytes that hold the same token get the same
result from `String_parseBoolReinterpret` and from
`String_parseBoolReinterpretIntrinsic`, whatever the bytes after the
terminator. -/
theorem C16_word_compare_token_only (charSigned : Bool) (wideShift : Nat) (s1 s2 : List Nat)
    (hb1 : IsBytes s1) (hb2 : IsBytes s2) (hl1 : 8 ≤ s1.length) (hl2 : 8 ≤ s2.length)
    (ht : token s1 = token s2) :
    String_parseBoolReinterpret charSigned wideShift (some s1)
        = String_parseBoolReinterpret charSigned wideShift (some s2) ∧
      String_parseBoolReinterpretIntrinsic charSigned (some s1)
        = String_parseBoolReinterpretIntrinsic charSigned (some s2) := by
  have hh : s1.headD 0 = s2.headD 0 := by
    rw [headD_eq_token_headD s1, headD_eq_token_headD s2, ht]
  constructor
  · rw [reinterpret_value charSigned wideShift s1 hb1 hl1,
      reinterpret_value charSigned wideShift s2 hb2 hl2, hh, ht]
    have hiff : (Packed.notMatchOffset (charToInt charSigned (s2.headD 0)) ∈ Packed.fillerOffsets
          ∧ (load64 s1 0).map (fun word => word &&& wideShift)
            = load64 Packed.notMatch (Packed.notMatchOffset (charToInt charSigned (s2.headD 0))))
        ↔ (Packed.notMatchOffset (charToInt charSigned (s2.headD 0)) ∈ Packed.fillerOffsets
          ∧ (load64 s2 0).map (fun word => word &&& wideShift)
            = load64 Packed.notMatch
                (Packed.notMatchOffset (charToInt charSigned (s2.headD 0)))) :=
      ⟨fun h => ⟨h.1, filler_compare_token wideShift s1 s2 hb1 hl1 hl2 ht _ h.1 h.2⟩,
       fun h => ⟨h.1, filler_compare_token wideShift s2 s1 hb2 hl2 hl1 ht.symm _ h.1 h.2⟩⟩
    simp only [hiff]
  · rw [intrinsic_value charSigned s1 hb1 hl1, intrinsic_value charSigned s2 hb2 hl2, hh, ht]

set_option maxRecDepth 8000 in
theorem C16_word_compare_token_only_witness :
    IsBytes (lit "on" ++ [0, 204, 204, 204, 204, 204]) ∧
      IsBytes (lit "on" ++ [0, 1, 2, 3, 4, 5, 6]) ∧
      8 ≤ (lit "on" ++ [0, 204, 204, 204, 204, 204]).length ∧
      8 ≤ (lit "on" ++ [0, 1, 2, 3, 4, 5, 6]).length ∧
      token (lit "on" ++ [0, 204, 204, 204, 204, 204])
        = token (lit "on" ++ [0, 1, 2, 3, 4, 5, 6]) ∧
      (String_parseBoolReinterpret true x86WideShift
            (some (lit "on" ++ [0, 204, 204, 204, 204, 204]))
          = String_parseBoolReinterpret true x86WideShift
              (some (lit "on" ++ [0, 1, 2, 3, 4, 5, 6])) ∧
        String_parseBoolReinterpretIntrinsic true
            (some (lit "on" ++ [0, 204, 204, 204, 204, 204]))
          = String_parseBoolReinterpretIntrinsic true
              (some (lit "on" ++ [0, 1, 2, 3, 4, 5, 6]))) :=
  ⟨by decide, by decide, by decide, by decide, by decide,
    C16_word_compare_token_only true x86WideShift (lit "on" ++ [0, 204, 204, 204, 204, 204])
      (lit "on" ++ [0, 1, 2, 3, 4, 5, 6]) (by decide) (by decide) (by decide) (by decide)
      (by decide)⟩

/-! ## The character loop: first keyword that is a prefix -/

theorem isPrefixOf_token (k : List Nat) (hk : 0 ∉ k) :
    ∀ s : List Nat, k.isPrefixOf (token s) = k.isPrefixOf s := by
  induction k with
  | nil => intro s; simp
  | cons a k ih =>
    intro s
    have ha : a ≠ 0 := fun h => hk (by simp [h])
    have hk2 : 0 ∉ k := fun h => hk (by simp [h])
    cases s with
    | nil => rfl
    | cons c s =>
      by_cases hc : c = 0
      · subst hc
        have hne : (a == 0) = false := by simpa using ha
        simp [token_cons_zero, List.isPrefixOf, hne]
      · simp [token_cons_ne c s hc, List.isPrefixOf, ih hk2 s]

theorem scan_token (rows : List (List Nat × Int)) (hrows : ∀ r ∈ rows, 0 ∉ r.1)
    (s : List Nat) : Loop.scan rows (token s) = Loop.scan rows s := by
  induction rows with
  | nil => rfl
  | cons r rows ih =>
    obtain ⟨k, v⟩ := r
    have h1 := isPrefixOf_token k (hrows (k, v) (by simp)) s
    have h2 := ih (fun r hr => hrows r (by simp [hr]))
    simp only [Loop.scan, h1, h2]

/-- The inner loop on two C strings: it ends inside both, with `result` set
exactly when the keyword is a prefix of the token. -/
theorem whileLoop_token (m : List Nat) :
    ∀ s : List Nat, 0 ∈ m → 0 ∈ s →
      Loop.whileLoop m s = some (if (token m).isPrefixOf (token s) then 1 else 0) := by
  induction m with
  | nil => intro s hm; simp at hm
  | cons a m ih =>
    intro s hm hs
    by_cases ha : a = 0
    · subst ha
      simp [Loop.whileLoop, token_cons_zero]
    · have hm2 : 0 ∈ m := by
        rcases List.mem_cons.1 hm with h | h
        · exact absurd h.symm ha
        · exact h
      cases s with
      | nil => simp at hs
      | cons c s =>
        by_cases hc : c = a
        · subst hc
          have hs2 : 0 ∈ s := by
            rcases List.mem_cons.1 hs with h | h
            · exact absurd h.symm ha
            · exact h
          simp [Loop.whileLoop, ha, ih s hm2 hs2, token_cons_ne c s ha, token_cons_ne c m ha,
            List.isPrefixOf]
        · by_cases hc0 : c = 0
          · subst hc0
            simp [Loop.whileLoop, ha, hc, token_cons_zero, token_cons_ne a m ha,
              List.isPrefixOf]
          · have hne : (a == c) = false := by
              simp only [beq_eq_false_iff_ne, ne_eq]
              exact fun h => hc h.symm
            simp [Loop.whileLoop, ha, hc, token_cons_ne c s hc0, token_cons_ne a m ha,
              List.isPrefixOf, hne]

theorem forLoop_token (s : List Nat) (hs : 0 ∈ s) (rows : List (List Nat × Int))
    (hrows : ∀ r ∈ rows, 0 ∈ r.1) :
    Loop.forLoop s rows
      = some (Loop.scan (rows.map fun r => (token r.1, r.2)) (token s)) := by
  induction rows with
  | nil => simp [Loop.forLoop, Loop.scan]
  | cons r rows ih =>
    obtain ⟨m, v⟩ := r
    have h1 := whileLoop_token m s (hrows (m, v) (by simp)) hs
    have h2 := ih (fun r hr => hrows r (by simp [hr]))
    simp only [List.map_cons, Loop.forLoop, h1, Loop.scan]
    by_cases hp : (token m).isPrefixOf (token s) = true
    · simp [hp]
    · simp [hp, h2]

/-- When all rows whose keyword is a prefix of `t` carry the same class, the
scan returns the class of any such row. -/
theorem scan_eq_of_mem (t : List Nat) (rows : List (List Nat × Int))
    (hcons : ∀ r1 ∈ rows, ∀ r2 ∈ rows, r1.1.isPrefixOf t = true → r2.1.isPrefixOf t = true →
      r1.2 = r2.2)
    (r : List Nat × Int) (hr : r ∈ rows) (hp : r.1.isPrefixOf t = true) :
    Loop.scan rows t = r.2 := by
  induction rows with
  | nil => simp at hr
  | cons r0 rows ih =>
    obtain ⟨k0, v0⟩ := r0
    by_cases h0 : k0.isPrefixOf t = true
    · simp only [Loop.scan, h0, if_true]
      exact hcons (k0, v0) (by simp) r hr h0 hp
    · simp only [Loop.scan, h0]
      rcases List.mem_cons.1 hr with h | h
      · subst h; exact absurd hp h0
      · exact ih (fun r1 h1 r2 h2 => hcons r1 (by simp [h1]) r2 (by simp [h2])) h

theorem scan_eq_neg_one (t : List Nat) (rows : List (List Nat × Int))
    (hnone : ∀ r ∈ rows, ¬ r.1.isPrefixOf t = true) : Loop.scan rows t = -1 := by
  induction rows with
  | nil => rfl
  | cons r0 rows ih =>
    obtain ⟨k0, v0⟩ := r0
    have h0 := hnone (k0, v0) (by simp)
    simp only [Loop.scan, h0]
    exact ih (fun r hr => hnone r (by simp [hr]))

/-- The scan does not depend on the order of the rows when all rows whose
keyword is a prefix of `t` carry the same class. -/
theorem scan_perm (t : List Nat) (rows1 rows2 : List (List Nat × Int))
    (hperm : rows1.Perm rows2)
    (hcons : ∀ r1 ∈ rows2, ∀ r2 ∈ rows2, r1.1.isPrefixOf t = true → r2.1.isPrefixOf t = true →
      r1.2 = r2.2) :
    Loop.scan rows1 t = Loop.scan rows2 t := by
  have hcons1 : ∀ r1 ∈ rows1, ∀ r2 ∈ rows1, r1.1.isPrefixOf t = true →
      r2.1.isPrefixOf t = true → r1.2 = r2.2 :=
    fun r1 h1 r2 h2 => hcons r1 (hperm.mem_iff.1 h1) r2 (hperm.mem_iff.1 h2)
  by_cases hex : ∃ r ∈ rows1, r.1.isPrefixOf t = true
  · obtain ⟨r, hr, hp⟩ := hex
    rw [scan_eq_of_mem t rows1 hcons1 r hr hp,
      scan_eq_of_mem t rows2 hcons r (hperm.mem_iff.1 hr) hp]
  · have hn1 : ∀ r ∈ rows1, ¬ r.1.isPrefixOf t = true := fun r hr hp => hex ⟨r, hr, hp⟩
    have hn2 : ∀ r ∈ rows2, ¬ r.1.isPrefixOf t = true :=
      fun r hr hp => hex ⟨r, hperm.mem_iff.2 hr, hp⟩
    rw [scan_eq_neg_one t rows1 hn1, scan_eq_neg_one t rows2 hn2]

/-- No keyword of the table is a prefix of another row's keyword with a
different class. -/
theorem rows_prefix_free :
    ∀ r1 ∈ Loop.rows, ∀ r2 ∈ Loop.rows, r1.1.isPrefixOf r2.1 = true → r1.2 = r2.2 := by
  decide

theorem rows_consistent (t : List Nat) :
    ∀ r1 ∈ Loop.rows, ∀ r2 ∈ Loop.rows, r1.1.isPrefixOf t = true → r2.1.isPrefixOf t = true →
      r1.2 = r2.2 := by
  intro r1 h1 r2 h2 p1 p2
  rw [List.isPrefixOf_iff_prefix] at p1 p2
  rcases List.prefix_or_prefix_of_prefix p1 p2 with h | h
  · exact rows_prefix_free r1 h1 r2 h2 (List.isPrefixOf_iff_prefix.2 h)
  · exact (rows_prefix_free r2 h2 r1 h1 (List.isPrefixOf_iff_prefix.2 h)).symm

theorem table_tokens :
    ((Loop.match_.zip Loop.value).map fun r => (token r.1, r.2)) = Loop.rows := by decide

theorem table_terminated : ∀ r ∈ Loop.match_.zip Loop.value, 0 ∈ r.1 := by decide

/-- C17: the scan over any permutation of the 16 rows of the tables of
`String_parseBoolLoop` returns, on every C string, what the function returns
with the rows in their original order. -/
theorem C17_loop_order_irrelevant (rows : List (List Nat × Int))
    (hperm : rows.Perm (Loop.match_.zip Loop.value)) (s : List Nat) (hs : NulTerminated s) :
    Loop.forLoop s rows = String_parseBoolLoop (some s) := by
  have hterm : ∀ r ∈ rows, 0 ∈ r.1 := fun r hr => table_terminated r (hperm.mem_iff.1 hr)
  have hp2 : (rows.map fun r => (token r.1, r.2)).Perm Loop.rows := by
    have h := hperm.map (fun r => (token r.1, r.2))
    rw [table_tokens] at h
    exact h
  rw [forLoop_token s hs rows hterm, scan_perm (token s) _ _ hp2 (rows_consistent (token s)),
    loop_value s hs]

theorem C17_loop_order_irrelevant_witness :
    (Loop.match_.zip Loop.value).reverse.Perm (Loop.match_.zip Loop.value) ∧
      NulTerminated (cstr "Offf") ∧
      Loop.forLoop (cstr "Offf") (Loop.match_.zip Loop.value).reverse
        = String_parseBoolLoop (some (cstr "Offf")) :=
  ⟨List.reverse_perm _, by decide,
    C17_loop_order_irrelevant (Loop.match_.zip Loop.value).reverse (List.reverse_perm _)
      (cstr "Offf") (by decide)⟩

theorem loop_keyword_then_any :
    ∀ r ∈ Loop.rows, ∀ rest : List Nat, String_parseBoolLoop (some (r.1 ++ rest)) = some r.2 := by
  intro r hr rest
  simp only [Loop.rows, List.mem_cons, List.mem_singleton, List.not_mem_nil, or_false] at hr
  rcases hr with rfl | rfl | rfl | rfl | rfl | rfl | rfl | rfl | rfl | rfl | rfl | rfl | rfl
    | rfl | rfl | rfl <;>
    simp [String_parseBoolLoop, Loop.forLoop, Loop.whileLoop, Loop.match_, Loop.value, cstr, lit]

/-- C20: on every C string `String_parseBoolLoop` returns the class of the
first row, in table order, whose keyword is a prefix of the input, and -1 when
no keyword is a prefix of it; and a storage that starts with a keyword gets
that keyword's class whatever bytes follow the keyword. -/
theorem C20_loop_first_prefix (s : List Nat) (hs : NulTerminated s) :
    String_parseBoolLoop (some s) = some (Loop.scan Loop.rows s) ∧
      (∀ r ∈ Loop.rows, ∀ rest : List Nat,
        String_parseBoolLoop (some (r.1 ++ rest)) = some r.2) := by
  refine ⟨?_, loop_keyword_then_any⟩
  rw [loop_value s hs, scan_token Loop.rows (by decide) s]

theorem C20_loop_first_prefix_witness :
    NulTerminated (cstr "no way") ∧
      (String_parseBoolLoop (some (cstr "no way")) = some (Loop.scan Loop.rows (cstr "no way")) ∧
        (∀ r ∈ Loop.rows, ∀ rest : List Nat,
          String_parseBoolLoop (some (r.1 ++ rest)) = some r.2)) ∧
      Loop.scan Loop.rows (cstr "no way") = 0 :=
  ⟨by decide, C20_loop_first_prefix (cstr "no way") (by decide), by decide⟩

/-! ## Width of the length mask -/

set_option maxRecDepth 8000 in
/-- C18, as stated, fails: at the slot of "true" (offset 48, shift count 24)
the mask does not cut the word of the input "truee" down to the 4 bytes of the
keyword; it keeps 5 bytes. -/
theorem C18_mask_is_wider_than_keyword :
    ¬ (∀ o ∈ [0, 8, 16, 24, 32, 40, 48, 56], ∀ len, Reinterpret.lengths[o]? = some len →
        ∀ word, word < 2 ^ 64 →
          word &&& maskShr x86WideShift len
            = word % 256 ^ (token (Packed.match_.drop o)).length) := by
  intro h
  have h48 := h 48 (by decide) 24 (by decide) 435475739252 (by decide)
  revert h48
  decide

set_option maxRecDepth 8000 in
/-- The masks of the true slots keep the keyword and its terminator. -/
theorem true_mask_width (wideShift word : Nat) (o : Nat)
    (ho : o ∈ [0, 8, 16, 24, 32, 40, 48, 56]) :
    ∃ len, Reinterpret.lengths[o]? = some len ∧
      word &&& maskShr wideShift len
        = word % 256 ^ ((token (Packed.match_.drop o)).length + 1) := by
  simp only [List.mem_cons, List.mem_singleton, List.not_mem_nil, or_false] at ho
  rcases ho with rfl | rfl | rfl | rfl | rfl | rfl | rfl | rfl
  · refine ⟨8, by decide, ?_⟩
    have hN : (token (List.drop 0 Packed.match_)).length + 1 = 7 := by decide
    rw [hN, maskShr_eq_mod wideShift word 56 (by decide) (by decide)]
    norm_num
  · refine ⟨40, by decide, ?_⟩
    have hN : (token (List.drop 8 Packed.match_)).length + 1 = 3 := by decide
    rw [hN, maskShr_eq_mod wideShift word 24 (by decide) (by decide)]
    norm_num
  · refine ⟨24, by decide, ?_⟩
    have hN : (token (List.drop 16 Packed.match_)).length + 1 = 5 := by decide
    rw [hN, maskShr_eq_mod wideShift word 40 (by decide) (by decide)]
    norm_num
  · refine ⟨32, by decide, ?_⟩
    have hN : (token (List.drop 24 Packed.match_)).length + 1 = 4 := by decide
    rw [hN, maskShr_eq_mod wideShift word 32 (by decide) (by decide)]
    norm_num
  · refine ⟨8, by decide, ?_⟩
    have hN : (token (List.drop 32 Packed.match_)).length + 1 = 7 := by decide
    rw [hN, maskShr_eq_mod wideShift word 56 (by decide) (by decide)]
    norm_num
  · refine ⟨40, by decide, ?_⟩
    have hN : (token (List.drop 40 Packed.match_)).length + 1 = 3 := by decide
    rw [hN, maskShr_eq_mod wideShift word 24 (by decide) (by decide)]
    norm_num
  · refine ⟨24, by decide, ?_⟩
    have hN : (token (List.drop 48 Packed.match_)).length + 1 = 5 := by decide
    rw [hN, maskShr_eq_mod wideShift word 40 (by decide) (by decide)]
    norm_num
  · refine ⟨32, by decide, ?_⟩
    have hN : (token (List.drop 56 Packed.match_)).length + 1 = 4 := by decide
    rw [hN, maskShr_eq_mod wideShift word 32 (by decide) (by decide)]
    norm_num

set_option maxRecDepth 8000 in
/-- The masks of the false keyword slots keep the keyword and its terminator. -/
theorem false_mask_width (wideShift word : Nat) (o : Nat) (ho : o ∈ Packed.keywordOffsets) :
    ∃ len, Reinterpret.lengths2[o]? = some len ∧
      word &&& maskShr wideShift len
        = word % 256 ^ ((token (Packed.notMatch.drop o)).length + 1) := by
  simp only [Packed.keywordOffsets, List.mem_cons, List.mem_singleton, List.not_mem_nil,
    or_false] at ho
  rcases ho with rfl | rfl | rfl | rfl | rfl | rfl | rfl | rfl
  · refine ⟨0, by decide, ?_⟩
    have hN : (token (List.drop 0 Packed.notMatch)).length + 1 = 8 := by decide
    rw [hN, maskShr_eq_mod wideShift word 64 (by decide) (by decide)]
    norm_num
  · refine ⟨16, by decide, ?_⟩
    have hN : (token (List.drop 8 Packed.notMatch)).length + 1 = 6 := by decide
    rw [hN, maskShr_eq_mod wideShift word 48 (by decide) (by decide)]
    norm_num
  · refine ⟨40, by decide, ?_⟩
    have hN : (token (List.drop 16 Packed.notMatch)).length + 1 = 3 := by decide
    rw [hN, maskShr_eq_mod wideShift word 24 (by decide) (by decide)]
    norm_num
  · refine ⟨32, by decide, ?_⟩
    have hN : (token (List.drop 24 Packed.notMatch)).length + 1 = 4 := by decide
    rw [hN, maskShr_eq_mod wideShift word 32 (by decide) (by decide)]
    norm_num
  · refine ⟨0, by decide, ?_⟩
    have hN : (token (List.drop 56 Packed.notMatch)).length + 1 = 8 := by decide
    rw [hN, maskShr_eq_mod wideShift word 64 (by decide) (by decide)]
    norm_num
  · refine ⟨16, by decide, ?_⟩
    have hN : (token (List.drop 64 Packed.notMatch)).length + 1 = 6 := by decide
    rw [hN, maskShr_eq_mod wideShift word 48 (by decide) (by decide)]
    norm_num
  · refine ⟨40, by decide, ?_⟩
    have hN : (token (List.drop 72 Packed.notMatch)).length + 1 = 3 := by decide
    rw [hN, maskShr_eq_mod wideShift word 24 (by decide) (by decide)]
    norm_num
  · refine ⟨32, by decide, ?_⟩
    have hN : (token (List.drop 80 Packed.notMatch)).length + 1 = 4 := by decide
    rw [hN, maskShr_eq_mod wideShift word 32 (by decide) (by decide)]
    norm_num

/-- C18, amended: at every keyword slot of `String_parseBoolReinterpret` the
mask `0xFFFFFFFFFFFFFFFF >> lengths[offset]` keeps exactly the low N + 1 bytes
of the input word, the N characters of the slot's keyword and its terminator,
and clears all higher bytes. -/
theorem C18_mask_keeps_keyword_and_terminator (wideShift word : Nat) :
    (∀ o ∈ [0, 8, 16, 24, 32, 40, 48, 56], ∃ len, Reinterpret.lengths[o]? = some len ∧
      word &&& maskShr wideShift len
        = word % 256 ^ ((token (Packed.match_.drop o)).length + 1)) ∧
    (∀ o ∈ Packed.keywordOffsets, ∃ len, Reinterpret.lengths2[o]? = some len ∧
      word &&& maskShr wideShift len
        = word % 256 ^ ((token (Packed.notMatch.drop o)).length + 1)) :=
  ⟨true_mask_width wideShift word, false_mask_width wideShift word⟩

/-! ## The character loops stay before the terminator -/

theorem loop_whileLoopReads_fst (strMatch : List Nat) :
    ∀ (strCheck : List Nat) (i : Nat),
      (Loop.whileLoopReads strMatch strCheck i).1 = Loop.whileLoop strMatch strCheck := by
  induction strMatch with
  | nil => intro strCheck i; simp [Loop.whileLoopReads, Loop.whileLoop]
  | cons m strMatch ih =>
    intro strCheck i
    by_cases hm : m = 0
    · simp [Loop.whileLoopReads, Loop.whileLoop, hm]
    · cases strCheck with
      | nil => simp [Loop.whileLoopReads, Loop.whileLoop, hm]
      | cons c strCheck =>
        by_cases hc : c = m
        · simp [Loop.whileLoopReads, Loop.whileLoop, hm, hc, ih]
        · simp [Loop.whileLoopReads, Loop.whileLoop, hm, hc]

theorem goto_whileLoopReads_fst (strMatch : List Nat) :
    ∀ (strCheck : List Nat) (i : Nat),
      (Goto.whileLoopReads strMatch strCheck i).1 = Goto.whileLoop strMatch strCheck := by
  induction strMatch with
  | nil => intro strCheck i; simp [Goto.whileLoopReads, Goto.whileLoop]
  | cons m strMatch ih =>
    intro strCheck i
    by_cases hm : m = 0
    · simp [Goto.whileLoopReads, Goto.whileLoop, hm]
    · cases strCheck with
      | nil => simp [Goto.whileLoopReads, Goto.whileLoop, hm]
      | cons c strCheck =>
        by_cases hc : c = m
        · simp [Goto.whileLoopReads, Goto.whileLoop, hm, hc, ih]
        · simp [Goto.whileLoopReads, Goto.whileLoop, hm, hc]

/-- The two loops read the input at the same indices. -/
theorem goto_whileLoopReads_snd (strMatch : List Nat) :
    ∀ (strCheck : List Nat) (i : Nat),
      (Goto.whileLoopReads strMatch strCheck i).2 = (Loop.whileLoopReads strMatch strCheck i).2 := by
  induction strMatch with
  | nil => intro strCheck i; simp [Goto.whileLoopReads, Loop.whileLoopReads]
  | cons m strMatch ih =>
    intro strCheck i
    by_cases hm : m = 0
    · simp [Goto.whileLoopReads, Loop.whileLoopReads, hm]
    · cases strCheck with
      | nil => simp [Goto.whileLoopReads, Loop.whileLoopReads, hm]
      | cons c strCheck =>
        by_cases hc : c = m
        · simp [Goto.whileLoopReads, Loop.whileLoopReads, hm, hc, ih]
        · simp [Goto.whileLoopReads, Loop.whileLoopReads, hm, hc]

/-- On a C string every read of the inner loop is at an index from the
starting index up to the index of the terminator: the loop goes on only after
reading a byte equal to a keyword byte that is not 0. -/
theorem loop_reads_bounded (strMatch : List Nat) :
    ∀ (strCheck : List Nat) (i : Nat), 0 ∈ strCheck →
      ∀ j ∈ (Loop.whileLoopReads strMatch strCheck i).2,
        i ≤ j ∧ j ≤ i + (token strCheck).length := by
  induction strMatch with
  | nil => intro strCheck i _ j hj; simp [Loop.whileLoopReads] at hj
  | cons m strMatch ih =>
    intro strCheck i hs j hj
    by_cases hm : m = 0
    · simp [Loop.whileLoopReads, hm] at hj
    · cases strCheck with
      | nil => simp at hs
      | cons c strCheck =>
        by_cases hc : c = m
        · subst hc
          have hs2 : 0 ∈ strCheck := by
            rcases List.mem_cons.1 hs with h | h
            · exact absurd h.symm hm
            · exact h
          simp only [Loop.whileLoopReads, hm, if_false, ne_eq, not_true_eq_false,
            List.mem_cons] at hj
          rw [token_cons_ne c strCheck hm, List.length_cons]
          rcases hj with h | h
          · omega
          · have := ih strCheck (i + 1) hs2 j h
            omega
        · simp only [Loop.whileLoopReads, hm, if_false, ne_eq, hc, not_false_eq_true, if_true,
            List.mem_singleton] at hj
          omega

theorem token_length_lt (s : List Nat) (hs : 0 ∈ s) : (token s).length < s.length := by
  obtain ⟨rest, hr⟩ := exists_token_split s hs
  have h := congrArg List.length hr
  simp only [List.length_append, List.length_cons] at h
  omega

/-- C21: on every C string and for every keyword of the tables, the inner
loop of `String_parseBoolLoop` and of `String_parseBoolGoto` returns as in the
function and reads the input only at indices from 0 to the index of its
terminator, all inside the storage. -/
theorem C21_loops_read_up_to_terminator (s : List Nat) (hs : NulTerminated s) :
    (∀ m ∈ Loop.match_,
      (Loop.whileLoopReads m s 0).1 = Loop.whileLoop m s ∧
      ∀ j ∈ (Loop.whileLoopReads m s 0).2, j ≤ (token s).length ∧ j < s.length) ∧
    (∀ m ∈ Goto.match_,
      (Goto.whileLoopReads m s 0).1 = Goto.whileLoop m s ∧
      ∀ j ∈ (Goto.whileLoopReads m s 0).2, j ≤ (token s).length ∧ j < s.length) := by
  have hlt := token_length_lt s hs
  constructor
  · intro m _
    refine ⟨loop_whileLoopReads_fst m s 0, ?_⟩
    intro j hj
    have := loop_reads_bounded m s 0 hs j hj
    omega
  · intro m _
    refine ⟨goto_whileLoopReads_fst m s 0, ?_⟩
    intro j hj
    rw [goto_whileLoopReads_snd] at hj
    have := loop_reads_bounded m s 0 hs j hj
    omega

theorem C21_loops_read_up_to_terminator_witness :
    NulTerminated (lit "tru" ++ [0, 204, 204]) ∧
      ((∀ m ∈ Loop.match_,
        (Loop.whileLoopReads m (lit "tru" ++ [0, 204, 204]) 0).1
            = Loop.whileLoop m (lit "tru" ++ [0, 204, 204]) ∧
        ∀ j ∈ (Loop.whileLoopReads m (lit "tru" ++ [0, 204, 204]) 0).2,
          j ≤ (token (lit "tru" ++ [0, 204, 204])).length
            ∧ j < (lit "tru" ++ [0, 204, 204]).length) ∧
      (∀ m ∈ Goto.match_,
        (Goto.whileLoopReads m (lit "tru" ++ [0, 204, 204]) 0).1
            = Goto.whileLoop m (lit "tru" ++ [0, 204, 204]) ∧
        ∀ j ∈ (Goto.whileLoopReads m (lit "tru" ++ [0, 204, 204]) 0).2,
          j ≤ (token (lit "tru" ++ [0, 204, 204])).length
            ∧ j < (lit "tru" ++ [0, 204, 204]).length)) ∧
      (Loop.whileLoopReads (cstr "true") (lit "tru" ++ [0, 204, 204]) 0).2 = [0, 1, 2, 3] ∧
      (token (lit "tru" ++ [0, 204, 204])).length = 3 :=
  ⟨by decide, C21_loops_read_up_to_terminator (lit "tru" ++ [0, 204, 204]) (by decide),
    by decide, by decide⟩

end BeyondStrcmp
